import Mathlib

/-!
Verification development for the static-frame core: an immutable labelled
two-dimensional tabular container (`Frame`) built atop a columnar block store
and two label indices.

The definitions below are a shallow embedding of the code in
`static_frame/core/frame.py` and `static_frame/core/iter_node.py`.  Supporting
containers that those modules import (`Index`, `TypeBlocks`, `Series`,
`IndexCorrespondence`) are not part of the embedded sources; they are modelled
from the specification, and each such definition carries a doc comment that
starts with "Modelled from the spec:".
-/

/-- A hashable label on an axis.  The sources use arbitrary hashable Python
values; integer labels (used for default `range(n)` indices) and string labels
cover all behaviour relevant here. -/
inductive Lbl where
  | nat (n : Nat)
  | str (s : String)
deriving DecidableEq, Repr, Ord

/-- Error taxonomy of the system: `RuntimeError`-kind structural violations,
`KeyError`-kind lookup failures, `ConstructionError` for duplicate labels,
generic `Exception`, and `NotImplementedError`. -/
inductive SFError where
  | runtime (msg : String)
  | key (msg : String)
  | construction (msg : String)
  | exn (msg : String)
  | notImplemented (msg : String)
deriving DecidableEq, Repr

instance {e a : Type} [DecidableEq e] [DecidableEq a] : DecidableEq (Except e a) :=
  fun x y =>
    match x, y with
    | .error e1, .error e2 =>
        if h : e1 = e2 then isTrue (by rw [h])
        else isFalse (fun hc => by cases hc; exact h rfl)
    | .error _, .ok _ => isFalse (fun hc => by cases hc)
    | .ok _, .error _ => isFalse (fun hc => by cases hc)
    | .ok a1, .ok a2 =>
        if h : a1 = a2 then isTrue (by rw [h])
        else isFalse (fun hc => by cases hc; exact h rfl)

/-- Modelled from the spec: the Label Index is an "ordered sequence of unique
hashable labels"; the label-to-position mapping is recovered by position
search, and position-to-label by the ordered sequence itself.  (`Index` is
imported by `frame.py` from `static_frame.core.index`, which is not among the
embedded sources.) -/
structure SFIndex where
  labels : List Lbl
deriving DecidableEq, Repr

/-- Modelled from the spec: `position_of(label)`, the label-to-position half of
the Label Index's bidirectional mapping; `none` when the label is absent. -/
def posOf : List Lbl → Lbl → Option Nat
  | [], _ => none
  | x :: xs, l => if x = l then some 0 else (posOf xs l).map (· + 1)

/-- Modelled from the spec: `from_labels(labels)` "fails with
`ConstructionError` if duplicate labels detected". -/
def SFIndex.fromLabels (ls : List Lbl) : Except SFError SFIndex :=
  if ls.Nodup then .ok ⟨ls⟩
  else .error (.construction "labels have duplicates")

/-- A position-space (iloc) axis key: a bare integer, a slice (start
inclusive, stop exclusive, mirroring Python position slices), an integer
array, or a boolean mask.  These are the key forms listed by the spec for
`Block Store.extract`; the absent key (Python `None`) is represented by
`Option Key` at use sites. -/
inductive Key where
  | single (i : Nat)
  | slice (lo hi : Option Nat)
  | list (is : List Nat)
  | boolMask (bs : List Bool)
deriving DecidableEq, Repr

/-- Translates `frame.py`'s `KEY_MULTIPLE_TYPES` classification: slices,
lists and boolean arrays are multiple-selecting; a bare integer is
single-selecting. -/
def Key.isMultiple : Key → Bool
  | .single _ => false
  | _ => true

/-- Modelled from the spec: positions selected by a position slice, with
Python clamping semantics (slices never raise). -/
def slicePositions (n : Nat) (lo hi : Option Nat) : List Nat :=
  let lo' := lo.getD 0
  let hi' := min (hi.getD n) n
  (List.range n).filter (fun i => lo' ≤ i ∧ i < hi')

/-- Modelled from the spec: positions selected by a boolean mask aligned to
the axis. -/
def maskPositions (bs : List Bool) : List Nat :=
  (List.range bs.length).filter (fun i => bs.getD i false)

/-- Modelled from the spec: `positions_of(key)` in position space — the list
of integer positions an iloc key selects on an axis of length `n`; the absent
key selects everything. -/
def keyPositions (n : Nat) : Option Key → List Nat
  | none => List.range n
  | some (.single i) => [i]
  | some (.slice lo hi) => slicePositions n lo hi
  | some (.list is) => is
  | some (.boolMask bs) => maskPositions bs

/-- Modelled from the spec: validity of an iloc key on an axis of length `n`.
Out-of-range integer positions raise; wrong-length boolean masks raise;
slices clamp and never raise. -/
def keyValid (n : Nat) : Option Key → Bool
  | none => true
  | some (.single i) => i < n
  | some (.slice _ _) => true
  | some (.list is) => is.all (· < n)
  | some (.boolMask bs) => bs.length = n

/-- Modelled from the spec: the Block Store owns the columns of the table.
Blocks are modelled one column per block (consolidation into wider blocks is
"purely a performance transform with no semantic effect" per the spec, so the
partitioning is irrelevant to the embedded behaviour).  `rowCount` is the
tracked table row count; the well-formedness predicate ties every column to
it. -/
structure TypeBlocks (V : Type) where
  columns : List (List V)
  rowCount : Nat
deriving DecidableEq, Repr

/-- Number of columns of the block store. -/
def TypeBlocks.colCount {V : Type} (tb : TypeBlocks V) : Nat :=
  tb.columns.length

/-- Shape `(row_count, column_count)` of the block store. -/
def TypeBlocks.shape {V : Type} (tb : TypeBlocks V) : Nat × Nat :=
  (tb.rowCount, tb.colCount)

/-- Block Store invariant: "every block has identical row_count equal to the
table row_count". -/
def TypeBlocks.wf {V : Type} (tb : TypeBlocks V) : Prop :=
  ∀ c ∈ tb.columns, c.length = tb.rowCount

instance {V : Type} (tb : TypeBlocks V) : Decidable tb.wf := by
  unfold TypeBlocks.wf; infer_instance

/-- Element at row `i`, column `j`, if in range. -/
def TypeBlocks.cell? {V : Type} (tb : TypeBlocks V) (i j : Nat) : Option V :=
  (tb.columns.get? j).bind (fun c => c.get? i)

/-- Element at row `i`, column `j`, with a default for out-of-range access
(never reached on well-formed stores with valid positions). -/
def TypeBlocks.cellD {V : Type} (tb : TypeBlocks V) (d : V) (i j : Nat) : V :=
  ((tb.columns.getD j []).getD i d)

/-- Row `i` of the block store read across all columns. -/
def TypeBlocks.row {V : Type} (tb : TypeBlocks V) (i : Nat) : List V :=
  tb.columns.filterMap (fun c => c.get? i)

/-- Modelled from the spec: `extract(row_key, column_key)` on the Block Store.
"Returns a scalar when both keys select exactly one element outside of
slice/array form; otherwise returns a new Block Store restricted to the
selected sub-blocks."  Invalid positions surface as `KeyError`-kind
failures. -/
def TypeBlocks.extract {V : Type} (tb : TypeBlocks V) (rowKey colKey : Option Key) :
    Except SFError (Sum V (TypeBlocks V)) :=
  if ¬ keyValid tb.rowCount rowKey then .error (.key "row position not found")
  else if ¬ keyValid tb.colCount colKey then .error (.key "column position not found")
  else
    match rowKey, colKey with
    | some (.single i), some (.single j) =>
        match tb.cell? i j with
        | some v => .ok (.inl v)
        | none => .error (.key "position not found")
    | _, _ =>
        let rps := keyPositions tb.rowCount rowKey
        let cps := keyPositions tb.colCount colKey
        .ok (.inr ⟨(cps.filterMap (fun j => tb.columns.get? j)).map
              (fun c => rps.filterMap (fun i => c.get? i)), rps.length⟩)

/-- The Frame facade: one Block Store, one row Label Index, one column Label
Index, and an optional name (`frame.py`, `Frame.__slots__`). -/
structure Frame (V : Type) where
  blocks : TypeBlocks V
  index : SFIndex
  columns : SFIndex
  name : Option String
deriving DecidableEq, Repr

/-- The Frame invariant stated by the spec: the block store is well formed,
`row_index.length == block_store.row_count`,
`column_index.length == block_store.column_count`, and labels on each axis
are unique. -/
def Frame.wf {V : Type} (f : Frame V) : Prop :=
  f.blocks.wf
    ∧ f.index.labels.length = f.blocks.rowCount
    ∧ f.columns.labels.length = f.blocks.colCount
    ∧ f.index.labels.Nodup
    ∧ f.columns.labels.Nodup

instance {V : Type} (f : Frame V) : Decidable f.wf := by
  unfold Frame.wf; infer_instance

/-- The tail of `Frame.__init__` when index and columns arrive as already
constructed `Index` objects (the `own_index` / STATIC assignment paths):
only the two size checks run.  Mirrors `frame.py` lines 885-893; note the
row-count check is guarded by `row_count` being truthy
("row count might be 0 for an empty DF"). -/
def frameInitOwn {V : Type} (data : TypeBlocks V) (index columns : SFIndex)
    (name : Option String) : Except SFError (Frame V) :=
  if data.rowCount ≠ 0 ∧ index.labels.length ≠ data.rowCount then
    .error (.runtime "Index has incorrect size")
  else if columns.labels.length ≠ data.colCount then
    .error (.runtime "Columns has incorrect size")
  else .ok ⟨data, index, columns, name⟩

/-- `Frame.__init__` with block data and optional label sequences
(`frame.py` lines 795-893, the `TypeBlocks` data path): an absent or empty
columns argument becomes the default `range(col_count)` index, likewise for
the index; otherwise the axis argument goes through the Index constructor
(duplicate labels fail with `ConstructionError`); finally the two size checks
run. -/
def resolveAxis (defaultCount : Nat) : Option (List Lbl) → Except SFError SFIndex
  | none => SFIndex.fromLabels ((List.range defaultCount).map Lbl.nat)
  | some ls =>
      if ls.length = 0 then
        SFIndex.fromLabels ((List.range defaultCount).map Lbl.nat)
      else SFIndex.fromLabels ls

/-- `Frame.__init__` assembled from the per-axis resolution above and the
final size checks. -/
def frameInit {V : Type} (data : TypeBlocks V) (index columns : Option (List Lbl))
    (name : Option String) : Except SFError (Frame V) := do
  let cols ← resolveAxis data.colCount columns
  let idx ← resolveAxis data.rowCount index
  frameInitOwn data idx cols name

/-- `Frame._extract_axis_not_multi` (`frame.py` lines 1487-1498): an axis key
is dimension-reducing exactly when it is present and not of a
multiple-selecting type. -/
def extractAxisNotMulti (rowKey colKey : Option Key) : Bool × Bool :=
  ((match rowKey with | some k => ¬ k.isMultiple | none => false),
   (match colKey with | some k => ¬ k.isMultiple | none => false))

/-- Modelled from the spec: a labelled one-dimensional vector (Series),
"indexed by the remaining multiple axis, named by the single-axis label".
(`Series` is imported from `static_frame.core.series`, not among the embedded
sources.) -/
structure MSeries (V : Type) where
  values : List V
  index : SFIndex
  name : Option Lbl
deriving DecidableEq, Repr

/-- Result of an extraction: a bare scalar, a labelled vector, or a Frame. -/
inductive ExtractResult (V : Type) where
  | element (v : V)
  | series (s : MSeries V)
  | frame (f : Frame V)
deriving DecidableEq, Repr

/-- Modelled from the spec: `Index._extract_iloc` builds the sub-Index of the
labels at the given positions; Label Index construction enforces the
uniqueness invariant, so repeated positions fail. -/
def SFIndex.extractIloc (ix : SFIndex) (ps : List Nat) : Except SFError SFIndex :=
  SFIndex.fromLabels (ps.filterMap (fun i => ix.labels.get? i))

/-- One axis of `Frame._extract`: the axis Index is reused when the key is
absent or the full null slice, otherwise extracted at the key's positions;
the axis label is captured as the Series name for a single-selecting key
(slices never capture a name). -/
def extractResolveAxis (cur : SFIndex) (count : Nat) (key : Option Key) :
    Except SFError (SFIndex × Option Lbl) :=
  if key = none ∨ key = some (.slice none none) then .ok (cur, none)
  else do
    let ix ← cur.extractIloc (keyPositions count key)
    let keyIsSlice := match key with | some (.slice _ _) => true | _ => false
    let nm := if keyIsSlice then none else
      match key with
      | some (.single i) => cur.labels.get? i
      | _ => none
    pure (ix, nm)

/-- `Frame._extract` (`frame.py` lines 1501-1569): position-space extraction.
Block-level extraction runs first; an element result passes through.  The
axis Indices are resolved per axis as above.  Result dimensionality follows
the source's branch structure on the extracted shape and the not-multi
classification. -/
def Frame.extract {V : Type} (f : Frame V) (rowKey colKey : Option Key) :
    Except SFError (ExtractResult V) := do
  let bl ← f.blocks.extract rowKey colKey
  match bl with
  | .inl v => pure (.element v)
  | .inr blocks => do
    let (index, nameRow) ← extractResolveAxis f.index f.blocks.rowCount rowKey
    let (columns, nameColumn) ←
      extractResolveAxis f.columns f.blocks.colCount colKey
    let axisNm := extractAxisNotMulti rowKey colKey
    if blocks.shape = (1, 1) then
      if axisNm.1 then pure (.series ⟨blocks.row 0, columns, nameRow⟩)
      else if axisNm.2 then pure (.series ⟨blocks.row 0, index, nameColumn⟩)
      else .frame <$> frameInitOwn blocks index columns f.name
    else if blocks.shape.1 = 1 then
      if axisNm.1 then pure (.series ⟨blocks.row 0, columns, nameRow⟩)
      else .frame <$> frameInitOwn blocks index columns f.name
    else if blocks.shape.2 = 1 then
      if axisNm.2 then pure (.series ⟨blocks.columns.getD 0 [], index, nameColumn⟩)
      else .frame <$> frameInitOwn blocks index columns f.name
    else .frame <$> frameInitOwn blocks index columns f.name

/-- A label-space (loc) axis key, mirroring the position-space key forms:
a bare label, a label slice (inclusive of both bounds, per the spec), a list
of labels, or a boolean mask. -/
inductive LocKey where
  | single (l : Lbl)
  | slice (lo hi : Option Lbl)
  | list (ls : List Lbl)
  | boolMask (bs : List Bool)
deriving DecidableEq, Repr

/-- Loc-side counterpart of the `KEY_MULTIPLE_TYPES` classification. -/
def LocKey.isMultiple : LocKey → Bool
  | .single _ => false
  | _ => true

/-- Modelled from the spec: `Index.loc_to_iloc` — converts a label-space key
to position space via `positions_of`: a single label to its position
(`KeyError`-kind when absent), a label slice to the equivalent position slice
("label slices are inclusive of both bounds, unlike position slices"), a list
of labels position-wise, and a boolean mask unchanged.  `locBound` converts
one bound of a label slice; the stop bound adds one. -/
def locBound (ls : List Lbl) (plus : Nat) : Option Lbl → Except SFError (Option Nat)
  | none => .ok none
  | some l =>
      match posOf ls l with
      | some i => .ok (some (i + plus))
      | none => .error (.key "label not found")

def SFIndex.locToIloc (ix : SFIndex) : LocKey → Except SFError Key
  | .single l =>
      match posOf ix.labels l with
      | some i => .ok (.single i)
      | none => .error (.key "label not found")
  | .slice lo hi => do
      let lo' ← locBound ix.labels 0 lo
      let hi' ← locBound ix.labels 1 hi
      .ok (.slice lo' hi')
  | .list ls => do
      let ps ← ls.mapM (fun l =>
        match posOf ix.labels l with
        | some i => pure i
        | none => .error (.key "label not found"))
      .ok (.list ps)
  | .boolMask bs => .ok (.boolMask bs)

/-- A potentially compound selection key as supplied to `.loc`, `.iloc` or
`__getitem__`: a lone axis key, or a two-axis tuple. -/
inductive CompoundLocKey where
  | single (k : LocKey)
  | pair (r c : LocKey)
deriving DecidableEq, Repr

/-- `Frame._compound_loc_to_iloc` (`frame.py` lines 1580-1593): a tuple key
splits into row and column loc keys (column converted first, as in the
source); a lone key is a row selector with no column key. -/
def Frame.compoundLocToIloc {V : Type} (f : Frame V) :
    CompoundLocKey → Except SFError (Key × Option Key)
  | .pair r c => do
      let ic ← f.columns.locToIloc c
      let ir ← f.index.locToIloc r
      pure (ir, some ic)
  | .single r => do
      let ir ← f.index.locToIloc r
      pure (ir, none)

/-- `Frame._extract_loc` (`frame.py` lines 1604-1607): convert the compound
loc key and delegate to `_extract`. -/
def Frame.extractLoc {V : Type} (f : Frame V) (k : CompoundLocKey) :
    Except SFError (ExtractResult V) := do
  let (rk, ck) ← f.compoundLocToIloc k
  f.extract (some rk) ck

/-- `Frame._compound_loc_to_getitem_iloc` (`frame.py` lines 1595-1602): a
tuple key "will raise an appropriate exception if a two argument loc-style
call is attempted"; a lone key is a column selector. -/
def Frame.compoundLocToGetitemIloc {V : Type} (f : Frame V) :
    CompoundLocKey → Except SFError (Option Key × Key)
  | .pair _ _ => .error (.key "__getitem__ does not support multiple indexers")
  | .single k => do
      let ck ← f.columns.locToIloc k
      pure (none, ck)

/-- `Frame.__getitem__` (`frame.py` lines 1609-1610): direct subscription is
column selection by label. -/
def Frame.getitem {V : Type} (f : Frame V) (k : CompoundLocKey) :
    Except SFError (ExtractResult V) := do
  let (rk, ck) ← f.compoundLocToGetitemIloc k
  f.extract rk (some ck)

/-- Modelled from the spec: the Index Correspondence artifact — "for a
reindex from index A to index B, which positions in B have a matching source
position in A (and which do not, requiring fill)", one entry per target
position. -/
def indexCorrespondence (src tgt : SFIndex) : List (Option Nat) :=
  tgt.labels.map (posOf src.labels)

/-- Modelled from the spec: `resize(index_correspondence_rows,
index_correspondence_columns, fill_value)` on the Block Store — "positions
with a match copy the source value; positions without a match take
`fill_value`".  An absent correspondence leaves that axis untouched. -/
def resizeBlocks {V : Type} (tb : TypeBlocks V)
    (rowIc colIc : Option (List (Option Nat))) (fill : V) : TypeBlocks V :=
  let cols := match colIc with
    | none => tb.columns
    | some ic => ic.map (fun o =>
        match o with
        | none => List.replicate tb.rowCount fill
        | some j => tb.columns.getD j [])
  match rowIc with
  | none => ⟨cols, tb.rowCount⟩
  | some ic =>
      ⟨cols.map (fun col => ic.map (fun o =>
          match o with
          | none => fill
          | some i => col.getD i fill)), ic.length⟩

/-- One axis of `Frame.reindex`: a supplied axis argument goes through the
Index constructor and produces an Index Correspondence against the current
axis Index; an absent argument keeps the current axis with no
correspondence. -/
def reindexResolveAxis (cur : SFIndex) :
    Option (List Lbl) → Except SFError (SFIndex × Option (List (Option Nat)))
  | some ls => do
      let ix ← SFIndex.fromLabels ls
      pure (ix, some (indexCorrespondence cur ix))
  | none => pure (cur, none)

/-- `Frame.reindex` (`frame.py` lines 1115-1158): both axes absent is an
error; a supplied axis goes through the Index constructor and produces an
Index Correspondence against the current axis; the block store is resized
against the correspondences; the new Frame is assembled through the
constructor (the resulting Index objects are assigned directly, so only the
size checks run). -/
def Frame.reindex {V : Type} (f : Frame V) (index columns : Option (List Lbl))
    (fill : V) : Except SFError (Frame V) := do
  if index = none ∧ columns = none then
    .error (.exn "must specify one of index or columns")
  else do
    let (newIndex, indexIc) ← reindexResolveAxis f.index index
    let (newColumns, columnsIc) ← reindexResolveAxis f.columns columns
    let tb := resizeBlocks f.blocks indexIc columnsIc fill
    frameInitOwn tb newIndex newColumns f.name

/-- Canonical ordering on labels used for sorted label-set operations
(derived `Ord` on `Lbl`). -/
def lblLe (a b : Lbl) : Bool :=
  (compare a b).isLE

/-- The canonical label order as a decidable relation, for sorting. -/
def lblR (a b : Lbl) : Prop :=
  lblLe a b = true

instance : DecidableRel lblR := fun a b => by
  unfold lblR
  infer_instance

/-- Modelled from the spec: label-set union/intersection across several axes
(`array_set_ufunc_many`): "label set unions are realized in a canonical
sorted order to ensure reproducibility independent of input ordering". -/
def labelSetMany (axes : List (List Lbl)) (union : Bool) : List Lbl :=
  match axes with
  | [] => []
  | a :: rest =>
      let combined := rest.foldl (fun acc ls =>
        if union then acc ++ (ls.filter (fun l => ¬ l ∈ acc)).dedup
        else acc.filter (fun l => l ∈ ls)) a.dedup
      combined.insertionSort lblR

/-- Modelled from the spec: `concatenate_rows(stores)` — row-wise
concatenation of block stores sharing a column count; each result column is
the concatenation of the source columns at that position, and the result row
count is the sum of the source row counts.  The column count is taken from
the first store, as the source iterates over the first store's blocks. -/
def concatRowsBlocks {V : Type} (tbs : List (TypeBlocks V)) : TypeBlocks V :=
  match tbs with
  | [] => ⟨[], 0⟩
  | t :: _ =>
      ⟨(List.range t.colCount).map (fun j =>
          (tbs.map (fun u => u.columns.getD j [])).flatten),
       (tbs.map (fun u => u.rowCount)).sum⟩

/-- `Frame.from_concat` along axis 0, vertical stacking (`frame.py` lines
181-262): with no explicit index, the new row index is the position-wise
concatenation of the source row indices, and a duplicate after concatenation
raises `RuntimeError`; with no explicit columns, the column labels are the
sorted union (or intersection) of the source column labels; each source not
already on those columns is reindexed onto them; the aligned block stores are
concatenated row-wise and the result is assembled through the constructor. -/
def concatIndexArg {V : Type} (frames : List (Frame V)) :
    Option (List Lbl) → Except SFError (List Lbl)
  | none =>
      let concatIdx := (frames.map (fun fr => fr.index.labels)).flatten
      if concatIdx.dedup.length ≠ concatIdx.length then
        .error (.runtime
          "Index names after vertical concatenation are not unique; supply an index argument.")
      else pure concatIdx
  | some is => pure is

/-- The resolved columns argument of a vertical concatenation: explicit, or
the union (or intersection) of the source column labels. -/
def concatColumnsArg {V : Type} (frames : List (Frame V)) (union : Bool) :
    Option (List Lbl) → List Lbl
  | none => labelSetMany (frames.map (fun fr => fr.columns.labels)) union
  | some cs => cs

def Frame.fromConcat0 {V : Type} (frames : List (Frame V))
    (index columns : Option (List Lbl)) (union : Bool) (name : Option String)
    (fill : V) : Except SFError (Frame V) := do
  let indexArg ← concatIndexArg frames index
  let columnsArg := concatColumnsArg frames union columns
  let aligned ← frames.mapM (fun fr =>
    if fr.columns.labels ≠ columnsArg then fr.reindex none (some columnsArg) fill
    else pure fr)
  let tb := concatRowsBlocks (aligned.map (fun fr => fr.blocks))
  frameInit tb (some indexArg) (some columnsArg) name

/-- Modelled from the spec: `Series.reindex(target, fill_value)` — the result
is indexed by the target; "positions with a match copy the source value;
positions without a match take `fill_value`". -/
def MSeries.reindex {V : Type} (s : MSeries V) (target : SFIndex) (fill : V) :
    MSeries V :=
  ⟨target.labels.map (fun l =>
      match posOf s.index.labels l with
      | some i => s.values.getD i fill
      | none => fill),
    target, s.name⟩

/-- Value of a labelled vector at a label, with a default when the label is
absent (or the vector malformed). -/
def MSeries.atLabel {V : Type} (s : MSeries V) (l : Lbl) (d : V) : V :=
  match posOf s.index.labels l with
  | some i => s.values.getD i d
  | none => d

/-- Well-formedness of a labelled vector: as many values as labels, labels
unique. -/
def MSeries.wf {V : Type} (s : MSeries V) : Prop :=
  s.values.length = s.index.labels.length ∧ s.index.labels.Nodup

instance {V : Type} (s : MSeries V) : Decidable s.wf := by
  unfold MSeries.wf; infer_instance

/-- Value of a Frame at a row label and column label, with a default when
either label is absent. -/
def Frame.cellAtLabels {V : Type} (f : Frame V) (r c : Lbl) (d : V) : V :=
  match posOf f.index.labels r, posOf f.columns.labels c with
  | some i, some j => f.blocks.cellD d i j
  | _, _ => d

/-- A labelled container supplied as an assignment value: a Series or a
Frame. -/
inductive LabelledValue (V : Type) where
  | series (s : MSeries V)
  | frame (fr : Frame V)
deriving DecidableEq, Repr

/-- `Frame._reindex_other_like_iloc` (`frame.py` lines 1072-1112): given a
Series or Frame assignment value, reindex it onto the Index components of
this Frame selected by the iloc key.  A single row key with a multiple column
key reindexes a Series by the selected columns; the symmetric case by the
selected rows; two multiple keys reindex a Frame on both axes; every other
configuration raises. -/
def Frame.reindexOtherLikeIloc {V : Type} (f : Frame V) (value : LabelledValue V)
    (rowKey colKey : Option Key) (fill : V) : Except SFError (LabelledValue V) :=
  let nm := extractAxisNotMulti rowKey colKey
  if nm.1 = true ∧ nm.2 = false then
    match value with
    | .series s => do
        let tgt ← f.columns.extractIloc (keyPositions f.columns.labels.length colKey)
        pure (.series (s.reindex tgt fill))
    | .frame _ => .error (.exn "cannot assign Frame with key configuration")
  else if nm.1 = false ∧ nm.2 = true then
    match value with
    | .series s => do
        let tgt ← f.index.extractIloc (keyPositions f.index.labels.length rowKey)
        pure (.series (s.reindex tgt fill))
    | .frame _ => .error (.exn "cannot assign Frame with key configuration")
  else if nm.1 = false ∧ nm.2 = false then
    match value with
    | .frame g => do
        let tgtColumns ← f.columns.extractIloc (keyPositions f.columns.labels.length colKey)
        let tgtRows ← f.index.extractIloc (keyPositions f.index.labels.length rowKey)
        let g' ← g.reindex (some tgtRows.labels) (some tgtColumns.labels) fill
        pure (.frame g')
    | .series _ => .error (.exn "cannot assign Series with key configuration")
  else .error (.exn "cannot assign with key configuration")

/-- The raw value matrix of a labelled container, in selection order: a
Series reindexed by columns is one row; a Series reindexed by rows is one
column per row; a Frame is its rows. -/
def LabelledValue.toMatrix {V : Type} (rowIsSingle : Bool) :
    LabelledValue V → List (List V)
  | .series s => if rowIsSingle then [s.values] else s.values.map (fun v => [v])
  | .frame g => (List.range g.blocks.rowCount).map (fun i => g.blocks.row i)

/-- Position of a value within a list of selected positions (its selection
order), if present. -/
def natPosIn : List Nat → Nat → Option Nat
  | [], _ => none
  | x :: xs, i => if x = i then some 0 else (natPosIn xs i).map (· + 1)

/-- Modelled from the spec: `extract_iloc_assign` on the Block Store —
"constructs a modified Block Store where the selected cells are overwritten"
by the supplied values (given in selection order as a row-major matrix);
unselected cells are untouched and the shape is preserved. -/
def TypeBlocks.extractIlocAssign {V : Type} (tb : TypeBlocks V)
    (rowKey colKey : Option Key) (vals : List (List V)) : TypeBlocks V :=
  let rps := keyPositions tb.rowCount rowKey
  let cps := keyPositions tb.colCount colKey
  ⟨tb.columns.mapIdx (fun j col =>
      match natPosIn cps j with
      | none => col
      | some cSel =>
          col.mapIdx (fun i v =>
            match natPosIn rps i with
            | none => v
            | some rSel => (vals.getD rSel []).getD cSel v)),
    tb.rowCount⟩

/-- An assignment value: a labelled container, or a raw (positional) value
matrix. -/
inductive AssignValue (V : Type) where
  | labelled (lv : LabelledValue V)
  | raw (vals : List (List V))
deriving DecidableEq, Repr

/-- `FrameAssign.__call__` (`frame.py` lines 2655-2669): a Series or Frame
value is first realigned through `_reindex_other_like_iloc`, then its values
overwrite the selected cells of the block store, and the new Frame is
assembled through the constructor with the container's own index, columns and
name. -/
def frameAssignCall {V : Type} (f : Frame V) (rowKey colKey : Option Key)
    (value : AssignValue V) (fill : V) : Except SFError (Frame V) := do
  let vals ← match value with
    | .labelled lv => do
        let lv' ← f.reindexOtherLikeIloc lv rowKey colKey fill
        pure (lv'.toMatrix (extractAxisNotMulti rowKey colKey).1)
    | .raw vals => pure vals
  let blocks := f.blocks.extractIlocAssign rowKey colKey vals
  frameInitOwn blocks f.index f.columns f.name

/-- A value supplied to `FrameGO.__setitem__`: a Series (realigned by label),
a raw array (must match the row count), or a single element (broadcast). -/
inductive SetValue (V : Type) where
  | series (s : MSeries V)
  | arr (vs : List V)
  | scalar (v : V)
deriving DecidableEq, Repr

/-- Appending one column (label and values) to a grow-only Frame: the block
store and the column Label Index both grow at the end. -/
def appendColumn {V : Type} (g : Frame V) (k : Lbl) (col : List V) : Frame V :=
  ⟨⟨g.blocks.columns ++ [col], g.blocks.rowCount⟩, g.index,
    ⟨g.columns.labels ++ [k]⟩, g.name⟩

/-- `FrameGO.__setitem__` (`frame.py` lines 2531-2571), in state-passing
style: the pair is the raised error (if any) together with the Frame state
after the call.  The duplicate-key check is the first statement of the
source, before any value handling or append, so that error leaves the state
untouched; a wrongly sized unindexed array also raises before appending; a
Series is reindexed onto the frame's index with the fill value; a single
element is broadcast over the rows. -/
def frameGOSetitem {V : Type} (g : Frame V) (k : Lbl) (value : SetValue V)
    (fill : V) : Option SFError × Frame V :=
  if k ∈ g.columns.labels then
    (some (.runtime "key already defined in columns; use .assign to get new Frame"), g)
  else
    let rowCount := g.index.labels.length
    match value with
    | .series s => (none, appendColumn g k ((s.reindex g.index fill).values))
    | .arr vs =>
        if vs.length ≠ rowCount then
          (some (.runtime "incorrectly sized, unindexed value"), g)
        else (none, appendColumn g k vs)
    | .scalar v => (none, appendColumn g k (List.replicate rowCount v))

/-- The two yield modes of an axis iterator (`IterNodeType` in
`iter_node.py`): bare values, or key/value pairs. -/
inductive IterYield where
  | values
  | items
deriving DecidableEq, Repr

/-- Modelled from the spec: the pool executor's map (an external collaborator
of `iter_node.py`) — dispatches work and collects results "preserving the
original key order". -/
def executorMap {A B : Type} (f : A → B) (xs : List A) : List B :=
  xs.map f

/-- `IterNodeDelegate.apply_iter_items` (`iter_node.py` lines 91-122) for a
callable function, over the items of the underlying axis iteration: yields
each key with the function applied to the value (VALUES mode) or to the
key/value pair (ITEMS mode). -/
def applyIterItemsSeq {K A B : Type} (yt : IterYield) (items : List (K × A))
    (fv : A → B) (fi : K × A → B) : List (K × B) :=
  items.map (fun kv =>
    (kv.1, match yt with
           | .values => fv kv.2
           | .items => fi kv))

/-- `IterNodeDelegate._apply_iter_items_parallel` (`iter_node.py` lines
55-85) for a callable function: the keys are captured (in order) before
dispatch while the argument generator is consumed, the function is mapped
over the arguments by the pool executor, and the captured keys are re-paired
with the worker results by position. -/
def applyIterItemsPar {K A B : Type} (yt : IterYield) (items : List (K × A))
    (fv : A → B) (fi : K × A → B) : List (K × B) :=
  let funcKeys := items.map Prod.fst
  match yt with
  | .values => funcKeys.zip (executorMap fv (items.map Prod.snd))
  | .items => funcKeys.zip (executorMap fi items)

/-- `IterNodeDelegate.apply` (`iter_node.py` lines 137-151): the apply
constructor over the sequential items. -/
def applySeq {K A B C : Type} (ctor : List (K × B) → C) (yt : IterYield)
    (items : List (K × A)) (fv : A → B) (fi : K × A → B) : C :=
  ctor (applyIterItemsSeq yt items fv fi)

/-- `IterNodeDelegate.apply_pool` (`iter_node.py` lines 154-178): the apply
constructor over the parallel items. -/
def applyPoolPar {K A B C : Type} (ctor : List (K × B) → C) (yt : IterYield)
    (items : List (K × A)) (fv : A → B) (fi : K × A → B) : C :=
  ctor (applyIterItemsPar yt items fv fi)

/-- The exact sub-labels of the selected target region of an assignment, as
the spec words it: the row labels and column labels of this Frame selected by
the iloc key, in selection order.  Stated from the spec for comparison with
the code path through `Frame.reindexOtherLikeIloc`. -/
def assignTargetLabels {V : Type} (f : Frame V) (rowKey colKey : Option Key) :
    List Lbl × List Lbl :=
  ((keyPositions f.index.labels.length rowKey).filterMap
      (fun i => f.index.labels.get? i),
   (keyPositions f.columns.labels.length colKey).filterMap
      (fun j => f.columns.labels.get? j))

/-! ## Supporting lemmas -/

theorem posOf_get? {ls : List Lbl} {l : Lbl} {i : Nat}
    (h : posOf ls l = some i) : ls.get? i = some l := by
  induction ls generalizing i with
  | nil => simp [posOf] at h
  | cons x xs ih =>
    unfold posOf at h
    by_cases hx : x = l
    · rw [if_pos hx] at h
      cases h
      show some x = some l
      rw [hx]
    · rw [if_neg hx] at h
      cases hp : posOf xs l with
      | none => rw [hp] at h; simp at h
      | some j =>
        rw [hp] at h
        simp at h
        subst h
        show xs.get? j = some l
        exact ih hp

theorem posOf_isSome_of_mem {ls : List Lbl} {l : Lbl} (h : l ∈ ls) :
    (posOf ls l).isSome := by
  induction ls with
  | nil => simp at h
  | cons x xs ih =>
    unfold posOf
    by_cases hx : x = l
    · rw [if_pos hx]; rfl
    · rw [if_neg hx]
      rcases List.mem_cons.mp h with h' | h'
      · exact absurd h'.symm hx
      · cases hp : posOf xs l with
        | none => have := ih h'; rw [hp] at this; simp at this
        | some j => rfl

theorem posOf_eq_none_of_not_mem {ls : List Lbl} {l : Lbl} (h : ¬ l ∈ ls) :
    posOf ls l = none := by
  cases hp : posOf ls l with
  | none => rfl
  | some i => exact absurd (List.get?_mem (posOf_get? hp)) h

theorem posOf_of_get? {ls : List Lbl} (hnd : ls.Nodup) {i : Nat} {l : Lbl}
    (h : ls.get? i = some l) : posOf ls l = some i := by
  induction ls generalizing i with
  | nil => simp [List.get?] at h
  | cons x xs ih =>
    rcases List.nodup_cons.mp hnd with ⟨hx, hxs⟩
    cases i with
    | zero =>
      have hxl : x = l := Option.some.inj h
      unfold posOf
      rw [if_pos hxl]
    | succ j =>
      have h' : xs.get? j = some l := h
      have hne : x ≠ l := fun hxl => hx (hxl ▸ List.get?_mem h')
      unfold posOf
      rw [if_neg hne, ih hxs h']
      rfl

theorem filterMap_get?_range {α : Type} (l : List α) :
    (List.range l.length).filterMap (fun i => l.get? i) = l := by
  suffices h : ∀ n, (List.range n).filterMap (fun i => l.get? i) = l.take n by
    simpa using h l.length
  intro n
  induction n with
  | zero => simp
  | succ m ih =>
    rw [List.range_succ, List.filterMap_append, ih, List.take_succ]
    cases h : l.get? m with
    | none =>
      have h' : l[m]? = none := by
        rw [← List.get?_eq_getElem?]; exact h
      simp [h, h']
    | some v =>
      have h' : l[m]? = some v := by
        rw [← List.get?_eq_getElem?]; exact h
      simp [h, h']

theorem fromLabels_eq_ok {ls : List Lbl} (hnd : ls.Nodup) :
    SFIndex.fromLabels ls = .ok ⟨ls⟩ := by
  simp [SFIndex.fromLabels, hnd]

theorem fromLabels_ok_labels {ls : List Lbl} {ix : SFIndex}
    (h : SFIndex.fromLabels ls = .ok ix) : ix.labels = ls ∧ ls.Nodup := by
  by_cases hnd : ls.Nodup
  · rw [fromLabels_eq_ok hnd] at h
    cases h
    exact ⟨rfl, hnd⟩
  · simp [SFIndex.fromLabels, hnd] at h

/-! ## Claim theorems -/

/-- C10: for every Frame and every tuple-valued key, direct subscription
(`__getitem__`, the column-selection interface) raises a `KeyError` stating
that multiple indexers are not supported; two-axis selection is not available
via plain subscription. -/
theorem claim_C10 {V : Type} (f : Frame V) (r c : LocKey) :
    f.getitem (.pair r c) =
      .error (.key "__getitem__ does not support multiple indexers") := rfl

/-- C9: for every grow-only Frame and every column label already present in
its column index, `__setitem__` with that label raises a `RuntimeError`-kind
failure and leaves the Frame state — existing column data and column order —
exactly as it was (the duplicate check precedes any append). -/
theorem claim_C9 {V : Type} (g : Frame V) (k : Lbl) (v : SetValue V) (fill : V)
    (h : k ∈ g.columns.labels) :
    frameGOSetitem g k v fill =
      (some (.runtime "key already defined in columns; use .assign to get new Frame"),
        g) := by
  unfold frameGOSetitem
  rw [if_pos h]

theorem claim_C9_witness :
    frameGOSetitem (Frame.mk ⟨[[(1 : Int)]], 1⟩ ⟨[Lbl.nat 0]⟩ ⟨[Lbl.str "a"]⟩ none)
        (Lbl.str "a") (SetValue.scalar 2) 0 =
      (some (.runtime "key already defined in columns; use .assign to get new Frame"),
        Frame.mk ⟨[[(1 : Int)]], 1⟩ ⟨[Lbl.nat 0]⟩ ⟨[Lbl.str "a"]⟩ none) :=
  claim_C9 _ _ _ _ (by decide)

/-- C6: for every function and every axis iteration (either yield mode), the
sequential `apply` and the parallel `apply_pool` produce the same key-ordered
items and the same constructed result; the parallel path pairs the keys
captured before dispatch with the worker results by position. -/
theorem claim_C6 {K A B C : Type} (ctor : List (K × B) → C) (yt : IterYield)
    (items : List (K × A)) (fv : A → B) (fi : K × A → B) :
    applyIterItemsPar yt items fv fi = applyIterItemsSeq yt items fv fi ∧
    applyPoolPar ctor yt items fv fi = applySeq ctor yt items fv fi := by
  have h : applyIterItemsPar yt items fv fi = applyIterItemsSeq yt items fv fi := by
    cases yt <;>
      simp [applyIterItemsPar, applyIterItemsSeq, executorMap, List.map_map,
        List.zip_map']
  exact ⟨h, congrArg ctor h⟩

theorem blocks_extract_none_none {V : Type} {tb : TypeBlocks V} (h : tb.wf) :
    tb.extract none none = .ok (.inr tb) := by
  have hcols : (List.range tb.columns.length).filterMap (fun j => tb.columns.get? j)
      = tb.columns := filterMap_get?_range tb.columns
  have hrows : tb.columns.map
      (fun c => (List.range tb.rowCount).filterMap (fun i => c.get? i))
      = tb.columns := by
    conv_rhs => rw [← List.map_id tb.columns]
    apply List.map_congr_left
    intro c hc
    show (List.range tb.rowCount).filterMap (fun i => c.get? i) = id c
    rw [← h c hc]
    exact filterMap_get?_range c
  unfold TypeBlocks.extract
  rw [if_neg (by simp [keyValid]), if_neg (by simp [keyValid])]
  show Except.ok (Sum.inr
      ⟨((List.range tb.colCount).filterMap (fun j => tb.columns.get? j)).map
          (fun c => (List.range tb.rowCount).filterMap (fun i => c.get? i)),
        (List.range tb.rowCount).length⟩)
    = Except.ok (Sum.inr tb)
  rw [show tb.colCount = tb.columns.length from rfl, hcols, hrows,
    List.length_range]

/-- C3: for every well-formed Frame `F`, extracting with both the row key and
the column key absent (the full null selection on both axes) yields a Frame
identical to `F` — same block values, same row labels, same column labels
(and same name). -/
theorem frameInitOwn_self {V : Type} {f : Frame V} (hf : f.wf) :
    frameInitOwn f.blocks f.index f.columns f.name = .ok f := by
  obtain ⟨hb, hr, hc, _, _⟩ := hf
  unfold frameInitOwn
  rw [if_neg (by simp [hr]), if_neg (by simp [hc])]

theorem claim_C3 {V : Type} (f : Frame V) (hf : f.wf) :
    f.extract none none = .ok (.frame f) := by
  obtain ⟨hb, hr, hc, hnr, hnc⟩ := hf
  unfold Frame.extract
  rw [blocks_extract_none_none hb]
  have hinit : frameInitOwn f.blocks f.index f.columns f.name = .ok f :=
    frameInitOwn_self ⟨hb, hr, hc, hnr, hnc⟩
  simp only [bind, Except.bind,
    show extractResolveAxis f.index f.blocks.rowCount none
      = .ok (f.index, none) from rfl,
    show extractResolveAxis f.columns f.blocks.colCount none
      = .ok (f.columns, none) from rfl]
  simp [extractAxisNotMulti, hinit, Except.map]

theorem claim_C3_witness :
    (Frame.mk ⟨[[(1 : Int), 3], [2, 4]], 2⟩ ⟨[Lbl.str "w", Lbl.str "x"]⟩
        ⟨[Lbl.str "p", Lbl.str "q"]⟩ none).wf ∧
    (Frame.mk ⟨[[(1 : Int), 3], [2, 4]], 2⟩ ⟨[Lbl.str "w", Lbl.str "x"]⟩
        ⟨[Lbl.str "p", Lbl.str "q"]⟩ none).extract none none =
      .ok (.frame (Frame.mk ⟨[[(1 : Int), 3], [2, 4]], 2⟩
        ⟨[Lbl.str "w", Lbl.str "x"]⟩ ⟨[Lbl.str "p", Lbl.str "q"]⟩ none)) :=
  ⟨by decide, claim_C3 _ (by decide)⟩

theorem map_getD_range {α : Type} (l : List α) (d : α) :
    (List.range l.length).map (fun i => l.getD i d) = l := by
  apply List.ext_getElem
  · simp
  · intro i h1 h2
    simp only [List.getElem_map, List.getElem_range]
    exact List.getD_eq_getElem l d h2

theorem indexCorrespondence_self {ls : List Lbl} (hnd : ls.Nodup) :
    indexCorrespondence ⟨ls⟩ ⟨ls⟩ = (List.range ls.length).map some := by
  unfold indexCorrespondence
  apply List.ext_getElem
  · simp
  · intro i h1 h2
    simp only [List.getElem_map, List.getElem_range]
    apply posOf_of_get? hnd
    rw [List.get?_eq_getElem?]
    exact List.getElem?_eq_getElem (by simpa using h1)

theorem resizeBlocks_identity {V : Type} {tb : TypeBlocks V} (h : tb.wf)
    (fill : V) :
    resizeBlocks tb (some ((List.range tb.rowCount).map some))
      (some ((List.range tb.colCount).map some)) fill = tb := by
  unfold resizeBlocks
  dsimp only
  have hcols : ((List.range tb.colCount).map some).map (fun o =>
      match o with
      | none => List.replicate tb.rowCount fill
      | some j => tb.columns.getD j []) = tb.columns := by
    rw [List.map_map]
    exact map_getD_range tb.columns []
  rw [hcols]
  have hrows : tb.columns.map (fun col => ((List.range tb.rowCount).map some).map
      (fun o => match o with
                | none => fill
                | some i => col.getD i fill)) = tb.columns := by
    conv_rhs => rw [← List.map_id tb.columns]
    apply List.map_congr_left
    intro c hc
    show ((List.range tb.rowCount).map some).map _ = id c
    rw [List.map_map, ← h c hc]
    exact map_getD_range c fill
  rw [hrows]
  simp

theorem reindexResolveAxis_some {cur : SFIndex} {ls : List Lbl}
    (hnd : ls.Nodup) :
    reindexResolveAxis cur (some ls)
      = .ok (⟨ls⟩, some (indexCorrespondence cur ⟨ls⟩)) := by
  simp only [reindexResolveAxis]
  rw [fromLabels_eq_ok hnd]
  rfl

/-- C4: for every well-formed Frame `F`, reindexing `F` onto its own index
and its own columns yields a Frame identical to `F` — same labels, same
element values (and same name). -/
theorem claim_C4 {V : Type} (f : Frame V) (hf : f.wf) (fill : V) :
    f.reindex (some f.index.labels) (some f.columns.labels) fill = .ok f := by
  obtain ⟨hb, hr, hc, hnr, hnc⟩ := hf
  unfold Frame.reindex
  rw [if_neg (by simp)]
  rw [reindexResolveAxis_some hnr, reindexResolveAxis_some hnc]
  simp only [bind, Except.bind]
  have hicr : indexCorrespondence f.index ⟨f.index.labels⟩
      = (List.range f.blocks.rowCount).map some := by
    rw [← hr]
    exact indexCorrespondence_self hnr
  have hicc : indexCorrespondence f.columns ⟨f.columns.labels⟩
      = (List.range f.blocks.colCount).map some := by
    rw [← hc]
    exact indexCorrespondence_self hnc
  rw [hicr, hicc, resizeBlocks_identity hb fill]
  exact frameInitOwn_self ⟨hb, hr, hc, hnr, hnc⟩

theorem claim_C4_witness :
    (Frame.mk ⟨[[(1 : Int), 3], [2, 4]], 2⟩ ⟨[Lbl.str "w", Lbl.str "x"]⟩
        ⟨[Lbl.nat 0, Lbl.nat 1]⟩ none).wf ∧
    (Frame.mk ⟨[[(1 : Int), 3], [2, 4]], 2⟩ ⟨[Lbl.str "w", Lbl.str "x"]⟩
        ⟨[Lbl.nat 0, Lbl.nat 1]⟩ none).reindex
        (some [Lbl.str "w", Lbl.str "x"]) (some [Lbl.nat 0, Lbl.nat 1]) 0 =
      .ok (Frame.mk ⟨[[(1 : Int), 3], [2, 4]], 2⟩ ⟨[Lbl.str "w", Lbl.str "x"]⟩
        ⟨[Lbl.nat 0, Lbl.nat 1]⟩ none) :=
  ⟨by decide, claim_C4 _ (by decide) 0⟩

theorem except_bind_ok {ε α β : Type} {e : Except ε α} {f : α → Except ε β}
    {b : β} (h : e >>= f = .ok b) : ∃ a, e = .ok a ∧ f a = .ok b := by
  cases e with
  | error err =>
    simp only [Bind.bind, Except.bind] at h
    cases h
  | ok a =>
    refine ⟨a, rfl, ?_⟩
    simpa only [Bind.bind, Except.bind] using h

theorem nodup_nat_range (n : Nat) : ((List.range n).map Lbl.nat).Nodup :=
  (List.nodup_range n).map (fun _ _ h => Lbl.nat.inj h)

theorem frameInitOwn_ok {V : Type} {data : TypeBlocks V} {ix cx : SFIndex}
    {nm : Option String} {F : Frame V}
    (h : frameInitOwn data ix cx nm = .ok F) :
    F = ⟨data, ix, cx, nm⟩ ∧ cx.labels.length = data.colCount ∧
      (data.rowCount ≠ 0 → ix.labels.length = data.rowCount) := by
  unfold frameInitOwn at h
  by_cases h1 : data.rowCount ≠ 0 ∧ ix.labels.length ≠ data.rowCount
  · rw [if_pos h1] at h; cases h
  · rw [if_neg h1] at h
    by_cases h2 : cx.labels.length ≠ data.colCount
    · rw [if_pos h2] at h; cases h
    · rw [if_neg h2] at h
      cases h
      refine ⟨rfl, not_not.mp h2, fun hrz => ?_⟩
      rcases not_and_or.mp h1 with h1a | h1b
      · exact absurd hrz h1a
      · exact not_not.mp h1b

theorem resolveAxis_ok_nodup {n : Nat} {arg : Option (List Lbl)} {ix : SFIndex}
    (h : resolveAxis n arg = .ok ix) : ix.labels.Nodup := by
  rcases arg with _ | ls
  · have h' : SFIndex.fromLabels ((List.range n).map Lbl.nat) = .ok ix := h
    rw [(fromLabels_ok_labels h').1]
    exact nodup_nat_range _
  · simp only [resolveAxis] at h
    by_cases hz : ls.length = 0
    · rw [if_pos hz] at h
      rw [(fromLabels_ok_labels h).1]
      exact nodup_nat_range _
    · rw [if_neg hz] at h
      rw [(fromLabels_ok_labels h).1]
      exact (fromLabels_ok_labels h).2

theorem frameInit_ok {V : Type} {data : TypeBlocks V}
    {index columns : Option (List Lbl)} {nm : Option String} {F : Frame V}
    (h : frameInit data index columns nm = .ok F) :
    F.blocks = data ∧ F.columns.labels.length = data.colCount ∧
      (data.rowCount ≠ 0 → F.index.labels.length = data.rowCount) ∧
      F.index.labels.Nodup ∧ F.columns.labels.Nodup := by
  unfold frameInit at h
  obtain ⟨cx, hcx, h⟩ := except_bind_ok h
  obtain ⟨ix, hix, h⟩ := except_bind_ok h
  obtain ⟨hF, hcl, hrl⟩ := frameInitOwn_ok h
  subst hF
  exact ⟨rfl, hcl, hrl, resolveAxis_ok_nodup hix, resolveAxis_ok_nodup hcx⟩

/-- C5, counterexample: a block store with one column and zero rows accepts
an index of length one.  The constructor's row-size check is guarded by the
row count being non-zero ("row count might be 0 for an empty DF"), so the
construction succeeds and the resulting Frame violates
`row_index.length == block_store.row_count`. -/
theorem claim_C5_counterexample :
    frameInit (TypeBlocks.mk [[]] 0 : TypeBlocks Int) (some [Lbl.nat 0])
        (some [Lbl.str "c"]) none =
      .ok (Frame.mk ⟨[[]], 0⟩ ⟨[Lbl.nat 0]⟩ ⟨[Lbl.str "c"]⟩ none) ∧
    (Frame.mk (⟨[[]], 0⟩ : TypeBlocks Int) ⟨[Lbl.nat 0]⟩ ⟨[Lbl.str "c"]⟩
        none).index.labels.length ≠
      (Frame.mk (⟨[[]], 0⟩ : TypeBlocks Int) ⟨[Lbl.nat 0]⟩ ⟨[Lbl.str "c"]⟩
        none).blocks.rowCount := by
  decide

/-- C5, amended: every successfully constructed Frame has a column Label
Index whose length equals the block store's column count, and — whenever the
block store has at least one row — a row Label Index whose length equals the
row count; the constructor raises the `RuntimeError`-kind size error whenever
a supplied non-empty duplicate-free columns argument has the wrong length,
and whenever the block store has at least one row and a supplied non-empty
duplicate-free index argument has the wrong length.  (When the block store
has zero rows the row-size check is skipped, and an empty supplied axis is
replaced by the default `range` index rather than checked.) -/
theorem claim_C5_amended {V : Type} (data : TypeBlocks V) :
    (∀ (index columns : Option (List Lbl)) (nm : Option String) (F : Frame V),
        frameInit data index columns nm = .ok F →
        F.blocks = data ∧ F.columns.labels.length = data.colCount ∧
          (data.rowCount ≠ 0 → F.index.labels.length = data.rowCount)) ∧
    (∀ (cs : List Lbl), cs ≠ [] → cs.Nodup → cs.length ≠ data.colCount →
        ∀ nm : Option String, frameInit data none (some cs) nm =
          .error (.runtime "Columns has incorrect size")) ∧
    (∀ (is : List Lbl), is ≠ [] → is.Nodup → data.rowCount ≠ 0 →
        is.length ≠ data.rowCount →
        ∀ nm : Option String, frameInit data (some is) none nm =
          .error (.runtime "Index has incorrect size")) := by
  refine ⟨?_, ?_, ?_⟩
  · intro index columns nm F h
    obtain ⟨h1, h2, h3, _, _⟩ := frameInit_ok h
    exact ⟨h1, h2, h3⟩
  · intro cs hne hnd hlen nm
    have hz : ¬ cs.length = 0 := fun hz => hne (List.length_eq_zero.mp hz)
    have h1 : resolveAxis data.colCount (some cs) = .ok ⟨cs⟩ := by
      simp only [resolveAxis]
      rw [if_neg hz, fromLabels_eq_ok hnd]
    have h2 : resolveAxis data.rowCount none
        = .ok ⟨(List.range data.rowCount).map Lbl.nat⟩ :=
      fromLabels_eq_ok (nodup_nat_range _)
    unfold frameInit
    rw [h1, h2]
    simp only [bind, Except.bind]
    unfold frameInitOwn
    rw [if_neg (by simp), if_pos (by simpa using hlen)]
  · intro is hne hnd hrz hlen nm
    have hz : ¬ is.length = 0 := fun hz => hne (List.length_eq_zero.mp hz)
    have h1 : resolveAxis data.colCount none
        = .ok ⟨(List.range data.colCount).map Lbl.nat⟩ :=
      fromLabels_eq_ok (nodup_nat_range _)
    have h2 : resolveAxis data.rowCount (some is) = .ok ⟨is⟩ := by
      simp only [resolveAxis]
      rw [if_neg hz, fromLabels_eq_ok hnd]
    unfold frameInit
    rw [h1, h2]
    simp only [bind, Except.bind]
    unfold frameInitOwn
    rw [if_pos (by simpa using ⟨hrz, hlen⟩)]

theorem claim_C5_amended_witness :
    ([Lbl.str "a"] ≠ ([] : List Lbl)) ∧ ([Lbl.str "a"] : List Lbl).Nodup ∧
    ([Lbl.str "a"].length ≠ (TypeBlocks.mk [[(1 : Int)], [2]] 1).colCount) ∧
    frameInit (TypeBlocks.mk [[(1 : Int)], [2]] 1) none (some [Lbl.str "a"])
        none = .error (.runtime "Columns has incorrect size") :=
  ⟨by decide, by decide, by decide,
    (claim_C5_amended (TypeBlocks.mk [[(1 : Int)], [2]] 1)).2.1 [Lbl.str "a"]
      (by decide) (by decide) (by decide) none⟩

theorem posOf_lt_length {ls : List Lbl} {l : Lbl} {i : Nat}
    (h : posOf ls l = some i) : i < ls.length := by
  have hg := posOf_get? h
  by_contra hge
  rw [List.get?_eq_none.mpr (Nat.le_of_not_lt hge)] at hg
  cases hg

theorem dedup_length_ne {a b : List Lbl} {l : Lbl} (ha : l ∈ a) (hb : l ∈ b) :
    (a ++ b).dedup.length ≠ (a ++ b).length := by
  intro h
  have heq : (a ++ b).dedup = a ++ b := (List.dedup_sublist _).eq_of_length h
  have hnd : (a ++ b).Nodup := by rw [← heq]; exact List.nodup_dedup _
  rcases List.nodup_append.mp hnd with ⟨_, _, hdisj⟩
  exact hdisj ha hb

theorem resolveAxis_exact {n : Nat} {ls : List Lbl} (hnd : ls.Nodup)
    (hlen : ls.length = n) : resolveAxis n (some ls) = .ok ⟨ls⟩ := by
  simp only [resolveAxis]
  by_cases hz : ls.length = 0
  · rw [if_pos hz]
    have hn : n = 0 := hlen ▸ hz
    have hls : ls = [] := List.length_eq_zero.mp hz
    subst hn hls
    exact fromLabels_eq_ok (by simp)
  · rw [if_neg hz, fromLabels_eq_ok hnd]

theorem resizeBlocks_colOnly {V : Type} (tb : TypeBlocks V)
    (ic : List (Option Nat)) (fill : V) :
    resizeBlocks tb none (some ic) fill =
      ⟨ic.map (fun o =>
          match o with
          | none => List.replicate tb.rowCount fill
          | some j => tb.columns.getD j []), tb.rowCount⟩ := rfl

theorem resizeBlocks_colOnly_wf {V : Type} {tb : TypeBlocks V} (hb : tb.wf)
    {ic : List (Option Nat)}
    (hic : ∀ o ∈ ic, ∀ j, o = some j → j < tb.colCount) (fill : V) :
    (resizeBlocks tb none (some ic) fill).wf := by
  rw [resizeBlocks_colOnly]
  intro c hc
  simp only [List.mem_map] at hc
  obtain ⟨o, ho, rfl⟩ := hc
  cases o with
  | none => simp
  | some j =>
    have hj : j < tb.columns.length := hic _ ho j rfl
    show (tb.columns.getD j []).length = tb.rowCount
    rw [List.getD_eq_getElem tb.columns [] hj]
    exact hb _ (List.getElem_mem hj)

theorem indexCorrespondence_valid {src tgt : SFIndex} :
    ∀ o ∈ indexCorrespondence src tgt, ∀ j, o = some j →
      j < src.labels.length := by
  intro o ho j hj
  subst hj
  unfold indexCorrespondence at ho
  simp only [List.mem_map] at ho
  obtain ⟨l, _, hl⟩ := ho
  exact posOf_lt_length hl

theorem reindex_columns_ok {V : Type} {f : Frame V} (hf : f.wf) {cs : List Lbl}
    (hnd : cs.Nodup) (fill : V) :
    f.reindex none (some cs) fill = .ok
      ⟨resizeBlocks f.blocks none (some (indexCorrespondence f.columns ⟨cs⟩)) fill,
        f.index, ⟨cs⟩, f.name⟩ := by
  obtain ⟨hb, hr, hc, hnr, hnc⟩ := hf
  unfold Frame.reindex
  rw [if_neg (by simp)]
  rw [show reindexResolveAxis f.index none = .ok (f.index, none) from rfl,
    reindexResolveAxis_some hnd]
  simp only [bind, Except.bind]
  unfold frameInitOwn
  have hrow : ¬ ((resizeBlocks f.blocks none
        (some (indexCorrespondence f.columns ⟨cs⟩)) fill).rowCount ≠ 0
      ∧ f.index.labels.length ≠ (resizeBlocks f.blocks none
        (some (indexCorrespondence f.columns ⟨cs⟩)) fill).rowCount) := by
    rw [resizeBlocks_colOnly]
    simp [hr]
  have hcol : ¬ ((SFIndex.mk cs).labels.length ≠ (resizeBlocks f.blocks none
      (some (indexCorrespondence f.columns ⟨cs⟩)) fill).colCount) := by
    rw [resizeBlocks_colOnly]
    simp [TypeBlocks.colCount, indexCorrespondence]
  rw [if_neg hrow, if_neg hcol]

theorem labelSetMany_nodup (axes : List (List Lbl)) (u : Bool) :
    (labelSetMany axes u).Nodup := by
  unfold labelSetMany
  match axes with
  | [] => simp
  | a :: rest =>
    apply ((List.perm_insertionSort lblR _).nodup_iff).mpr
    have hstep : ∀ (acc ls : List Lbl), acc.Nodup →
        ((if u then acc ++ (ls.filter (fun l => ¬ l ∈ acc)).dedup
          else acc.filter (fun l => l ∈ ls)) : List Lbl).Nodup := by
      intro acc ls h
      cases u with
      | false =>
        rw [if_neg (by simp)]
        exact h.filter _
      | true =>
        rw [if_pos rfl]
        rw [List.nodup_append]
        refine ⟨h, List.nodup_dedup _, ?_⟩
        intro x hx hx2
        have hm := (List.mem_filter.mp (List.mem_dedup.mp hx2)).2
        simp only [decide_eq_true_eq] at hm
        exact hm hx
    have hfold : ∀ (rest : List (List Lbl)) (acc : List Lbl), acc.Nodup →
        (rest.foldl (fun acc ls =>
          if u then acc ++ (ls.filter (fun l => ¬ l ∈ acc)).dedup
          else acc.filter (fun l => l ∈ ls)) acc).Nodup := by
      intro rest
      induction rest with
      | nil => intro acc h; exact h
      | cons x xs ih =>
        intro acc h
        exact ih _ (hstep acc x h)
    exact hfold rest a.dedup (List.nodup_dedup a)

theorem concatIndexArg_dup {V : Type} {f1 f2 : Frame V} {l : Lbl}
    (hl1 : l ∈ f1.index.labels) (hl2 : l ∈ f2.index.labels) :
    concatIndexArg [f1, f2] none = .error (.runtime
      "Index names after vertical concatenation are not unique; supply an index argument.") := by
  unfold concatIndexArg
  have hflat : (([f1, f2].map (fun fr => fr.index.labels)).flatten)
      = f1.index.labels ++ f2.index.labels := by simp
  rw [hflat, if_pos (dedup_length_ne hl1 hl2)]

theorem align_ok {V : Type} {fr : Frame V} (hf : fr.wf) {U : List Lbl}
    (hnd : U.Nodup) (fill : V) :
    ∃ fr', (if fr.columns.labels ≠ U then fr.reindex none (some U) fill
        else pure fr) = .ok fr' ∧
      fr'.blocks.rowCount = fr.blocks.rowCount ∧
      fr'.blocks.colCount = U.length ∧
      fr'.blocks.wf ∧
      fr'.index = fr.index := by
  by_cases h : fr.columns.labels = U
  · refine ⟨fr, ?_, rfl, ?_, hf.1, rfl⟩
    · rw [if_neg (by simpa using h)]
      rfl
    · rw [← h]
      exact hf.2.2.1.symm
  · refine ⟨⟨resizeBlocks fr.blocks none
        (some (indexCorrespondence fr.columns ⟨U⟩)) fill, fr.index, ⟨U⟩, fr.name⟩,
      ?_, ?_, ?_, ?_, rfl⟩
    · rw [if_pos h]
      exact reindex_columns_ok hf hnd fill
    · rw [resizeBlocks_colOnly]
    · show (resizeBlocks fr.blocks none
        (some (indexCorrespondence fr.columns ⟨U⟩)) fill).colCount = U.length
      rw [resizeBlocks_colOnly]
      simp [TypeBlocks.colCount, indexCorrespondence]
    · apply resizeBlocks_colOnly_wf hf.1 _ fill
      intro o ho j hj
      have := indexCorrespondence_valid o ho j hj
      rw [← hf.2.2.1]
      exact this

/-- C1: for every pair of well-formed Frames sharing a row label,
`from_concat` along axis 0 with no explicit index raises the
`RuntimeError`-kind uniqueness failure, while supplying the explicit index
`range(n)` (for `n` the total number of rows) makes the same concatenation
succeed and yield a Frame with `n` rows. -/
theorem claim_C1 {V : Type} (f1 f2 : Frame V) (l : Lbl)
    (h1 : f1.wf) (h2 : f2.wf)
    (hl1 : l ∈ f1.index.labels) (hl2 : l ∈ f2.index.labels)
    (u : Bool) (nm : Option String) (fill : V) :
    Frame.fromConcat0 [f1, f2] none none u nm fill =
      .error (.runtime
        "Index names after vertical concatenation are not unique; supply an index argument.") ∧
    ∃ F, Frame.fromConcat0 [f1, f2]
        (some ((List.range
          (f1.index.labels.length + f2.index.labels.length)).map Lbl.nat))
        none u nm fill = .ok F ∧
      F.blocks.rowCount = f1.index.labels.length + f2.index.labels.length ∧
      F.index.labels.length
        = f1.index.labels.length + f2.index.labels.length := by
  constructor
  · unfold Frame.fromConcat0
    rw [concatIndexArg_dup hl1 hl2]
    rfl
  · set n := f1.index.labels.length + f2.index.labels.length with hn
    set U := concatColumnsArg [f1, f2] u none with hU
    have hndU : U.Nodup := by
      rw [hU]
      unfold concatColumnsArg
      exact labelSetMany_nodup _ u
    clear_value n U
    obtain ⟨g1, hg1, hg1r, hg1c, hg1w, hg1i⟩ := align_ok h1 hndU fill
    obtain ⟨g2, hg2, hg2r, hg2c, hg2w, hg2i⟩ := align_ok h2 hndU fill
    have hg1c' : g1.blocks.columns.length = U.length := hg1c
    have htbc : (concatRowsBlocks [g1.blocks, g2.blocks]).colCount
        = U.length := by
      unfold concatRowsBlocks TypeBlocks.colCount
      simpa using hg1c'
    have htbr : (concatRowsBlocks [g1.blocks, g2.blocks]).rowCount = n := by
      show ([g1.blocks, g2.blocks].map (fun b => b.rowCount)).sum = n
      rw [hn]
      simp [hg1r, hg2r, h1.2.1, h2.2.1]
    have heq : Frame.fromConcat0 [f1, f2]
        (some ((List.range n).map Lbl.nat)) none u nm fill
        = frameInit (concatRowsBlocks [g1.blocks, g2.blocks])
            (some ((List.range n).map Lbl.nat)) (some U) nm := by
      unfold Frame.fromConcat0
      rw [show concatIndexArg [f1, f2] (some ((List.range n).map Lbl.nat))
          = pure ((List.range n).map Lbl.nat) from rfl]
      simp only [bind, Except.bind, pure, Except.pure]
      rw [← hU]
      simp only [pure, Except.pure] at hg1 hg2
      simp only [List.mapM_cons, List.mapM_nil, hg1, hg2, bind, Except.bind,
        pure, Except.pure, List.map_cons, List.map_nil]
    rw [heq]
    have hinit : frameInit (concatRowsBlocks [g1.blocks, g2.blocks])
        (some ((List.range n).map Lbl.nat)) (some U) nm
        = .ok ⟨concatRowsBlocks [g1.blocks, g2.blocks],
            ⟨(List.range n).map Lbl.nat⟩, ⟨U⟩, nm⟩ := by
      unfold frameInit
      rw [resolveAxis_exact hndU htbc.symm,
        resolveAxis_exact (nodup_nat_range n) (by simp [htbr])]
      simp only [bind, Except.bind]
      unfold frameInitOwn
      rw [if_neg (by simp [htbr]), if_neg (by simpa using htbc.symm)]
    rw [hinit]
    exact ⟨_, rfl, htbr, by simp⟩

theorem claim_C1_witness :
    Frame.fromConcat0
        [Frame.mk ⟨[[(1 : Int)]], 1⟩ ⟨[Lbl.str "a"]⟩ ⟨[Lbl.str "c"]⟩ none,
          Frame.mk ⟨[[(2 : Int)]], 1⟩ ⟨[Lbl.str "a"]⟩ ⟨[Lbl.str "c"]⟩ none]
        none none true none (0 : Int) =
      .error (.runtime
        "Index names after vertical concatenation are not unique; supply an index argument.") ∧
    ∃ F, Frame.fromConcat0
        [Frame.mk ⟨[[(1 : Int)]], 1⟩ ⟨[Lbl.str "a"]⟩ ⟨[Lbl.str "c"]⟩ none,
          Frame.mk ⟨[[(2 : Int)]], 1⟩ ⟨[Lbl.str "a"]⟩ ⟨[Lbl.str "c"]⟩ none]
        (some ((List.range 2).map Lbl.nat)) none true none (0 : Int) = .ok F ∧
      F.blocks.rowCount = 2 ∧ F.index.labels.length = 2 :=
  claim_C1 _ _ (Lbl.str "a") (by decide) (by decide) (by decide) (by decide)
    true none 0

theorem keyPositions_valid {n : Nat} {k : Option Key} (h : keyValid n k = true) :
    ∀ p ∈ keyPositions n k, p < n := by
  intro p hp
  match k with
  | none => simpa [keyPositions] using hp
  | some (.single i) =>
    simp only [keyPositions, List.mem_singleton] at hp
    subst hp
    simpa [keyValid] using h
  | some (.slice lo hi) =>
    simp only [keyPositions, slicePositions, List.mem_filter,
      List.mem_range] at hp
    exact hp.1
  | some (.list is) =>
    simp only [keyValid, List.all_eq_true, decide_eq_true_eq] at h
    exact h p hp
  | some (.boolMask bs) =>
    simp only [keyValid, decide_eq_true_eq] at h
    simp only [keyPositions, maskPositions, List.mem_filter,
      List.mem_range] at hp
    exact h ▸ hp.1

theorem filterMap_get?_complete {α : Type} {ls : List α} {ps : List Nat}
    (h : ∀ p ∈ ps, p < ls.length) :
    (ps.filterMap (fun i => ls.get? i)).length = ps.length := by
  induction ps with
  | nil => rfl
  | cons p rest ih =>
    have hp : p < ls.length := h p (List.mem_cons_self p rest)
    have hv : ls.get? p = some (ls.get ⟨p, hp⟩) := List.get?_eq_get hp
    rw [List.filterMap_cons, hv]
    simp only [List.length_cons]
    rw [ih (fun q hq => h q (List.mem_cons_of_mem p hq))]

theorem slicePositions_null (n : Nat) :
    slicePositions n none none = List.range n := by
  unfold slicePositions
  apply List.filter_eq_self.mpr
  intro a ha
  simp only [List.mem_range] at ha
  simp [ha]

theorem extractIloc_ok_stats {ix : SFIndex} {ps : List Nat} {ix' : SFIndex}
    (hps : ∀ p ∈ ps, p < ix.labels.length)
    (h : ix.extractIloc ps = .ok ix') :
    ix'.labels.length = ps.length ∧ ix'.labels.Nodup := by
  unfold SFIndex.extractIloc at h
  obtain ⟨hl, hnd⟩ := fromLabels_ok_labels h
  rw [hl]
  exact ⟨filterMap_get?_complete hps, hnd⟩

theorem extract_inr_stats {V : Type} {tb tb' : TypeBlocks V} {rk ck : Option Key}
    (hb : tb.wf) (h : tb.extract rk ck = .ok (.inr tb')) :
    tb'.wf ∧ tb'.rowCount = (keyPositions tb.rowCount rk).length ∧
      tb'.colCount = (keyPositions tb.colCount ck).length := by
  unfold TypeBlocks.extract at h
  by_cases hrv : keyValid tb.rowCount rk = true
  case neg => rw [if_pos (by simpa using hrv)] at h; cases h
  case pos =>
  rw [if_neg (by simpa using hrv)] at h
  by_cases hcv : keyValid tb.colCount ck = true
  case neg => rw [if_pos (by simpa using hcv)] at h; cases h
  case pos =>
  rw [if_neg (by simpa using hcv)] at h
  split at h
  · split at h <;> simp at h
  · have htb' : tb' = ⟨((keyPositions tb.colCount ck).filterMap
        (fun j => tb.columns.get? j)).map
          (fun c => (keyPositions tb.rowCount rk).filterMap
            (fun i => c.get? i)),
        (keyPositions tb.rowCount rk).length⟩ := by
      have := Except.ok.inj h
      exact (Sum.inr.inj this).symm
    subst htb'
    refine ⟨?_, rfl, ?_⟩
    · intro c hc
      simp only [List.mem_map] at hc
      obtain ⟨c0, hc0, rfl⟩ := hc
      obtain ⟨j, hj, hjc⟩ := List.mem_filterMap.mp hc0
      have hc0mem : c0 ∈ tb.columns := List.get?_mem hjc
      have hc0len : c0.length = tb.rowCount := hb c0 hc0mem
      show ((keyPositions tb.rowCount rk).filterMap
        (fun i => c0.get? i)).length = (keyPositions tb.rowCount rk).length
      exact filterMap_get?_complete
        (fun p hp => hc0len ▸ keyPositions_valid hrv p hp)
    · show (((keyPositions tb.colCount ck).filterMap
          (fun j => tb.columns.get? j)).map _).length
        = (keyPositions tb.colCount ck).length
      rw [List.length_map]
      exact filterMap_get?_complete (fun p hp => keyPositions_valid hcv p hp)

theorem extract_ok_valid {V : Type} {tb : TypeBlocks V} {rk ck : Option Key}
    {r : Sum V (TypeBlocks V)} (h : tb.extract rk ck = .ok r) :
    keyValid tb.rowCount rk = true ∧ keyValid tb.colCount ck = true := by
  unfold TypeBlocks.extract at h
  by_cases hrv : keyValid tb.rowCount rk = true
  · by_cases hcv : keyValid tb.colCount ck = true
    · exact ⟨hrv, hcv⟩
    · rw [if_neg (by simpa using hrv), if_pos (by simpa using hcv)] at h
      cases h
  · rw [if_pos (by simpa using hrv)] at h
    cases h

theorem extractResolveAxis_ok {cur : SFIndex} {count : Nat} {key : Option Key}
    {ix : SFIndex} {nm : Option Lbl}
    (hlen : cur.labels.length = count) (hnd : cur.labels.Nodup)
    (hv : keyValid count key = true)
    (h : extractResolveAxis cur count key = .ok (ix, nm)) :
    ix.labels.length = (keyPositions count key).length ∧ ix.labels.Nodup := by
  unfold extractResolveAxis at h
  by_cases hcnd : key = none ∨ key = some (.slice none none)
  · rw [if_pos hcnd] at h
    simp only [Except.ok.injEq, Prod.mk.injEq] at h
    obtain ⟨rfl, rfl⟩ := h
    rcases hcnd with rfl | rfl
    · exact ⟨by simp [keyPositions, hlen], hnd⟩
    · exact ⟨by simp [keyPositions, slicePositions_null, hlen], hnd⟩
  · rw [if_neg hcnd] at h
    obtain ⟨x, hx, hpure⟩ := except_bind_ok h
    simp only [pure, Except.pure, Except.ok.injEq, Prod.mk.injEq] at hpure
    obtain ⟨rfl, rfl⟩ := hpure
    exact extractIloc_ok_stats
      (fun p hp => hlen ▸ keyPositions_valid hv p hp) hx

theorem frame_map_ok {V : Type} {X : Except SFError (Frame V)} {g : Frame V}
    (h : (ExtractResult.frame <$> X) = .ok (.frame g)) : X = .ok g := by
  cases X with
  | error e => simp [Functor.map, Except.map] at h
  | ok g' =>
    simp only [Functor.map, Except.map, Except.ok.injEq,
      ExtractResult.frame.injEq] at h
    rw [h]

theorem extract_frame_wf {V : Type} {f g : Frame V} {rk ck : Option Key}
    (hf : f.wf) (h : f.extract rk ck = .ok (.frame g)) : g.wf := by
  obtain ⟨hb, hr, hc, hnr, hnc⟩ := hf
  unfold Frame.extract at h
  obtain ⟨bl, hbl, h⟩ := except_bind_ok h
  obtain ⟨hrv, hcv⟩ := extract_ok_valid hbl
  cases bl with
  | inl v => simp [pure, Except.pure] at h
  | inr blocks =>
    obtain ⟨hbw, hbr, hbc⟩ := extract_inr_stats hb hbl
    dsimp only at h
    obtain ⟨⟨index, nameRow⟩, hix, h⟩ := except_bind_ok h
    dsimp only at h
    obtain ⟨⟨columns, nameColumn⟩, hcx, h⟩ := except_bind_ok h
    dsimp only at h
    obtain ⟨hil, hind⟩ := extractResolveAxis_ok hr hnr hrv hix
    obtain ⟨hcl, hcnd⟩ := extractResolveAxis_ok hc hnc hcv hcx
    have hser : ∀ (s : MSeries V),
        (pure (ExtractResult.series s) : Except SFError (ExtractResult V))
          ≠ .ok (.frame g) := by
      intro s hcontra
      simp [pure, Except.pure] at hcontra
    have hfin : frameInitOwn blocks index columns f.name = .ok g := by
      by_cases h11 : blocks.shape = (1, 1)
      · rw [if_pos h11] at h
        by_cases ha1 : (extractAxisNotMulti rk ck).1 = true
        · rw [if_pos ha1] at h
          exact absurd h (hser _)
        · rw [if_neg ha1] at h
          by_cases ha2 : (extractAxisNotMulti rk ck).2 = true
          · rw [if_pos ha2] at h
            exact absurd h (hser _)
          · rw [if_neg ha2] at h
            exact frame_map_ok h
      · rw [if_neg h11] at h
        by_cases hs1 : blocks.shape.1 = 1
        · rw [if_pos hs1] at h
          by_cases ha1 : (extractAxisNotMulti rk ck).1 = true
          · rw [if_pos ha1] at h
            exact absurd h (hser _)
          · rw [if_neg ha1] at h
            exact frame_map_ok h
        · rw [if_neg hs1] at h
          by_cases hs2 : blocks.shape.2 = 1
          · rw [if_pos hs2] at h
            by_cases ha2 : (extractAxisNotMulti rk ck).2 = true
            · rw [if_pos ha2] at h
              exact absurd h (hser _)
            · rw [if_neg ha2] at h
              exact frame_map_ok h
          · rw [if_neg hs2] at h
            exact frame_map_ok h
    obtain ⟨hgF, _, _⟩ := frameInitOwn_ok hfin
    subst hgF
    exact ⟨hbw, hil.trans hbr.symm, hcl.trans hbc.symm, hind, hcnd⟩

theorem reindexResolveAxis_ok_cases {cur : SFIndex} {arg : Option (List Lbl)}
    {ix : SFIndex} {icOpt : Option (List (Option Nat))}
    (h : reindexResolveAxis cur arg = .ok (ix, icOpt)) :
    (arg = none ∧ ix = cur ∧ icOpt = none) ∨
    (∃ ls, arg = some ls ∧ ls.Nodup ∧ ix = ⟨ls⟩ ∧
      icOpt = some (indexCorrespondence cur ⟨ls⟩)) := by
  rcases arg with _ | ls
  · have h' : (Except.ok (cur, (none : Option (List (Option Nat))))
        : Except SFError _) = .ok (ix, icOpt) := h
    simp only [Except.ok.injEq, Prod.mk.injEq] at h'
    exact Or.inl ⟨rfl, h'.1.symm, h'.2.symm⟩
  · by_cases hnd : ls.Nodup
    · rw [reindexResolveAxis_some hnd] at h
      simp only [Except.ok.injEq, Prod.mk.injEq] at h
      exact Or.inr ⟨ls, rfl, hnd, h.1.symm, h.2.symm⟩
    · simp only [reindexResolveAxis, SFIndex.fromLabels, hnd, if_false,
        bind, Except.bind] at h
      cases h

theorem resizeBlocks_rowCount {V : Type} (tb : TypeBlocks V)
    (rowIc colIc : Option (List (Option Nat))) (fill : V) :
    (resizeBlocks tb rowIc colIc fill).rowCount
      = match rowIc with
        | none => tb.rowCount
        | some ic => ic.length := by
  unfold resizeBlocks
  cases rowIc <;> rfl

theorem resizeBlocks_colCount {V : Type} (tb : TypeBlocks V)
    (rowIc colIc : Option (List (Option Nat))) (fill : V) :
    (resizeBlocks tb rowIc colIc fill).colCount
      = match colIc with
        | none => tb.colCount
        | some ic => ic.length := by
  unfold resizeBlocks TypeBlocks.colCount
  cases rowIc <;> cases colIc <;> simp

theorem resizeBlocks_wf {V : Type} {tb : TypeBlocks V} (hb : tb.wf)
    {rowIc colIc : Option (List (Option Nat))}
    (hcol : ∀ ic, colIc = some ic → ∀ o ∈ ic, ∀ j, o = some j →
      j < tb.colCount) (fill : V) :
    (resizeBlocks tb rowIc colIc fill).wf := by
  have hcols : ∀ c ∈ (match colIc with
      | none => tb.columns
      | some ic => ic.map (fun o =>
          match o with
          | none => List.replicate tb.rowCount fill
          | some j => tb.columns.getD j [])), c.length = tb.rowCount := by
    cases colIc with
    | none => exact hb
    | some ic =>
      intro c hc
      simp only [List.mem_map] at hc
      obtain ⟨o, ho, rfl⟩ := hc
      cases o with
      | none => simp
      | some j =>
        have hj : j < tb.columns.length := hcol ic rfl _ ho j rfl
        show (tb.columns.getD j []).length = tb.rowCount
        rw [List.getD_eq_getElem tb.columns [] hj]
        exact hb _ (List.getElem_mem hj)
  unfold resizeBlocks
  cases rowIc with
  | none => exact hcols
  | some ic =>
    intro c hc
    simp only [List.mem_map] at hc
    obtain ⟨c0, hc0, rfl⟩ := hc
    simp

theorem reindex_wf {V : Type} {f f' : Frame V} (hf : f.wf)
    {i c : Option (List Lbl)} {fill : V}
    (h : f.reindex i c fill = .ok f') : f'.wf := by
  obtain ⟨hb, hr, hc, hnr, hnc⟩ := hf
  unfold Frame.reindex at h
  by_cases hic : i = none ∧ c = none
  · rw [if_pos hic] at h
    cases h
  · rw [if_neg hic] at h
    obtain ⟨⟨ix, icr⟩, hix, h⟩ := except_bind_ok h
    dsimp only at h
    obtain ⟨⟨cx, icc⟩, hcx, h⟩ := except_bind_ok h
    dsimp only at h
    obtain ⟨hF, _, _⟩ := frameInitOwn_ok h
    subst hF
    have hcolvalid : ∀ ic, icc = some ic → ∀ o ∈ ic, ∀ j, o = some j →
        j < f.blocks.colCount := by
      rcases reindexResolveAxis_ok_cases hcx with ⟨_, _, hnone⟩ | ⟨ls, _, _, _, hsome⟩
      · intro ic hcontra
        rw [hnone] at hcontra
        cases hcontra
      · intro ic hicc o ho j hj
        rw [hsome] at hicc
        cases hicc
        have := indexCorrespondence_valid o ho j hj
        rw [← hc]
        exact this
    refine ⟨resizeBlocks_wf hb hcolvalid fill, ?_, ?_, ?_, ?_⟩
    · rw [resizeBlocks_rowCount]
      rcases reindexResolveAxis_ok_cases hix with ⟨rfl, rfl, rfl⟩
        | ⟨ls, _, _, rfl, rfl⟩
      · exact hr
      · simp [indexCorrespondence]
    · rw [resizeBlocks_colCount]
      rcases reindexResolveAxis_ok_cases hcx with ⟨rfl, rfl, rfl⟩
        | ⟨ls, _, _, rfl, rfl⟩
      · exact hc
      · simp [indexCorrespondence]
    · rcases reindexResolveAxis_ok_cases hix with ⟨_, rfl, _⟩
        | ⟨ls, _, hnd, rfl, _⟩
      · exact hnr
      · exact hnd
    · rcases reindexResolveAxis_ok_cases hcx with ⟨_, rfl, _⟩
        | ⟨ls, _, hnd, rfl, _⟩
      · exact hnc
      · exact hnd

theorem extractIlocAssign_rowCount {V : Type} (tb : TypeBlocks V)
    (rk ck : Option Key) (vals : List (List V)) :
    (tb.extractIlocAssign rk ck vals).rowCount = tb.rowCount := rfl

theorem extractIlocAssign_colCount {V : Type} (tb : TypeBlocks V)
    (rk ck : Option Key) (vals : List (List V)) :
    (tb.extractIlocAssign rk ck vals).colCount = tb.colCount := by
  unfold TypeBlocks.extractIlocAssign TypeBlocks.colCount
  simp [List.length_mapIdx]

theorem extractIlocAssign_wf {V : Type} {tb : TypeBlocks V} (hb : tb.wf)
    (rk ck : Option Key) (vals : List (List V)) :
    (tb.extractIlocAssign rk ck vals).wf := by
  intro c hc
  unfold TypeBlocks.extractIlocAssign at hc
  obtain ⟨j, hj, hjc⟩ := List.mem_iff_getElem.mp hc
  rw [List.getElem_mapIdx] at hjc
  have hjlt : j < tb.columns.length := by simpa [List.length_mapIdx] using hj
  have hmem : tb.columns[j] ∈ tb.columns := List.getElem_mem hjlt
  have hlen := hb _ hmem
  show c.length = (tb.extractIlocAssign rk ck vals).rowCount
  rw [extractIlocAssign_rowCount]
  rw [← hjc]
  split
  · exact hlen
  · rw [List.length_mapIdx]
    exact hlen

theorem frameAssignCall_wf {V : Type} {f F' : Frame V} {rk ck : Option Key}
    {v : AssignValue V} {fill : V} (hf : f.wf)
    (h : frameAssignCall f rk ck v fill = .ok F') : F'.wf := by
  obtain ⟨hb, hr, hc, hnr, hnc⟩ := hf
  have hend : ∀ (vals : List (List V)),
      frameInitOwn (f.blocks.extractIlocAssign rk ck vals) f.index f.columns
        f.name = .ok F' → F'.wf := by
    intro vals hfin
    obtain ⟨hF, _, _⟩ := frameInitOwn_ok hfin
    subst hF
    refine ⟨extractIlocAssign_wf hb rk ck vals, ?_, ?_, hnr, hnc⟩
    · rw [extractIlocAssign_rowCount]
      exact hr
    · rw [extractIlocAssign_colCount]
      exact hc
  unfold frameAssignCall at h
  rcases v with lv | vals0
  · dsimp only at h
    obtain ⟨lv', hlv, h⟩ := except_bind_ok h
    dsimp only [bind, Except.bind, pure, Except.pure] at h
    exact hend _ h
  · dsimp only [bind, Except.bind, pure, Except.pure] at h
    exact hend _ h

theorem align_step_ok {V : Type} {fr g : Frame V} (hf : fr.wf) {U : List Lbl}
    {fill : V}
    (h : (if fr.columns.labels ≠ U then fr.reindex none (some U) fill
        else pure fr) = .ok g) :
    g.blocks.wf ∧ g.blocks.colCount = U.length ∧
      g.blocks.rowCount = fr.blocks.rowCount := by
  by_cases he : fr.columns.labels = U
  · rw [if_neg (by simpa using he)] at h
    have h' : (Except.ok fr : Except SFError (Frame V)) = .ok g := h
    have hg : fr = g := Except.ok.inj h'
    subst hg
    exact ⟨hf.1, by rw [← he]; exact hf.2.2.1.symm, rfl⟩
  · rw [if_pos he] at h
    unfold Frame.reindex at h
    rw [if_neg (by simp)] at h
    rw [show reindexResolveAxis fr.index none = .ok (fr.index, none) from rfl]
      at h
    simp only [bind, Except.bind] at h
    obtain ⟨⟨cx, icc⟩, hcx, hfin⟩ := except_bind_ok h
    clear h
    rcases reindexResolveAxis_ok_cases hcx with ⟨hcontra, _, _⟩
      | ⟨ls, hls, hnd, hcx1, hcx2⟩
    · cases hcontra
    · have hlsU : ls = U := (Option.some.inj hls).symm
      subst hlsU
      rw [hcx1, hcx2] at hfin
      obtain ⟨hF, _, _⟩ := frameInitOwn_ok hfin
      subst hF
      refine ⟨?_, ?_, ?_⟩
      · apply resizeBlocks_wf hf.1 _ fill
        intro ic hic o ho j hj
        cases hic
        have := indexCorrespondence_valid o ho j hj
        rw [← hf.2.2.1]
        exact this
      · rw [resizeBlocks_colCount]
        simp [indexCorrespondence]
      · rw [resizeBlocks_rowCount]

theorem alignAll_ok {V : Type} {frames aligned : List (Frame V)} {U : List Lbl}
    {fill : V} (hwf : ∀ fr ∈ frames, fr.wf)
    (h : frames.mapM (fun fr =>
        if fr.columns.labels ≠ U then fr.reindex none (some U) fill
        else pure fr) = .ok aligned) :
    aligned.length = frames.length ∧
    ∀ g ∈ aligned, g.blocks.wf ∧ g.blocks.colCount = U.length := by
  induction frames generalizing aligned with
  | nil =>
    rw [List.mapM_nil] at h
    have h' : (Except.ok ([] : List (Frame V))
        : Except SFError (List (Frame V))) = .ok aligned := h
    have : ([] : List (Frame V)) = aligned := Except.ok.inj h'
    subst this
    exact ⟨rfl, by intro g hg; simp at hg⟩
  | cons fr rest ih =>
    rw [List.mapM_cons] at h
    obtain ⟨g, hg, h⟩ := except_bind_ok h
    obtain ⟨gs, hgs, h⟩ := except_bind_ok h
    have h' : (Except.ok (g :: gs) : Except SFError (List (Frame V)))
        = .ok aligned := h
    have : g :: gs = aligned := Except.ok.inj h'
    subst this
    obtain ⟨hlen, hall⟩ :=
      ih (fun x hx => hwf x (List.mem_cons_of_mem _ hx)) hgs
    obtain ⟨hw, hcw, _⟩ := align_step_ok (hwf fr (List.mem_cons_self fr rest)) hg
    refine ⟨by simp [hlen], ?_⟩
    intro g' hg'
    rcases List.mem_cons.mp hg' with rfl | hmem
    · exact ⟨hw, hcw⟩
    · exact hall g' hmem

theorem concatRowsBlocks_wf {V : Type} {tbs : List (TypeBlocks V)} {m : Nat}
    (hwf : ∀ t ∈ tbs, t.wf) (hcc : ∀ t ∈ tbs, t.colCount = m) :
    (concatRowsBlocks tbs).wf := by
  match tbs with
  | [] =>
    intro c hc
    simp [concatRowsBlocks] at hc
  | t0 :: rest =>
    intro c hc
    simp only [concatRowsBlocks, List.mem_map, List.mem_range] at hc
    obtain ⟨j, hj, rfl⟩ := hc
    show (((t0 :: rest).map (fun u => u.columns.getD j [])).flatten).length
      = ((t0 :: rest).map (fun u => u.rowCount)).sum
    rw [List.length_flatten, List.map_map]
    congr 1
    apply List.map_congr_left
    intro t ht
    show (t.columns.getD j []).length = t.rowCount
    have hjt : j < t.columns.length := by
      have h1 := hcc t ht
      have h0 := hcc t0 (List.mem_cons_self t0 rest)
      show j < t.colCount
      rw [h1, ← h0]
      exact hj
    rw [List.getD_eq_getElem t.columns [] hjt]
    exact hwf t ht _ (List.getElem_mem hjt)

theorem fromConcat0_wf {V : Type} {frames : List (Frame V)}
    {i c : Option (List Lbl)} {u : Bool} {nm : Option String} {fill : V}
    {F : Frame V} (hwf : ∀ fr ∈ frames, fr.wf)
    (h : Frame.fromConcat0 frames i c u nm fill = .ok F) :
    F.blocks.wf ∧ F.columns.labels.length = F.blocks.colCount ∧
      F.index.labels.Nodup ∧ F.columns.labels.Nodup ∧
      (F.blocks.rowCount ≠ 0 →
        F.index.labels.length = F.blocks.rowCount) := by
  unfold Frame.fromConcat0 at h
  obtain ⟨indexArg, hidx, h⟩ := except_bind_ok h
  try dsimp only at h
  obtain ⟨aligned, hal, h⟩ := except_bind_ok h
  try dsimp only at h
  obtain ⟨hFb, hFc, hFr, hFnd1, hFnd2⟩ := frameInit_ok h
  obtain ⟨hlen, hall⟩ := alignAll_ok hwf hal
  have hblocks : (concatRowsBlocks (aligned.map (fun fr => fr.blocks))).wf := by
    apply concatRowsBlocks_wf (m := (concatColumnsArg frames u c).length)
    · intro t ht
      simp only [List.mem_map] at ht
      obtain ⟨g, hg, rfl⟩ := ht
      exact (hall g hg).1
    · intro t ht
      simp only [List.mem_map] at ht
      obtain ⟨g, hg, rfl⟩ := ht
      exact (hall g hg).2
  rw [hFb]
  exact ⟨hblocks, hFc, hFnd1, hFnd2, hFr⟩

/-- C8, counterexample: concatenating two well-formed zero-row Frames along
axis 0 with an explicit index of length one succeeds, yet the returned Frame
violates the row invariant (`row_index.length == block_store.row_count`) —
the constructor's row-size check is skipped when the concatenated block
store has zero rows, so the operation returns a Frame that is not fully
valid. -/
theorem claim_C8_counterexample :
    (Frame.mk (⟨[[]], 0⟩ : TypeBlocks Int) ⟨[]⟩ ⟨[Lbl.str "c"]⟩ none).wf ∧
    Frame.fromConcat0
        [Frame.mk (⟨[[]], 0⟩ : TypeBlocks Int) ⟨[]⟩ ⟨[Lbl.str "c"]⟩ none,
          Frame.mk (⟨[[]], 0⟩ : TypeBlocks Int) ⟨[]⟩ ⟨[Lbl.str "c"]⟩ none]
        (some [Lbl.nat 0]) none true none (0 : Int) =
      .ok (Frame.mk (⟨[[]], 0⟩ : TypeBlocks Int) ⟨[Lbl.nat 0]⟩
        ⟨[Lbl.str "c"]⟩ none) ∧
    ¬ (Frame.mk (⟨[[]], 0⟩ : TypeBlocks Int) ⟨[Lbl.nat 0]⟩
        ⟨[Lbl.str "c"]⟩ none).wf := by
  decide

/-- C8, amended: for well-formed inputs, reindexing, frame-valued extraction
and assignment either raise or return a Frame satisfying the full invariant;
concatenation either raises or returns a Frame whose block store is well
formed, whose column index matches the column count, whose labels are unique
on both axes, and — whenever the resulting block store has at least one
row — whose row index matches the row count.  (With a zero-row result and an
explicit index, concatenation can return a Frame whose row-index length
differs from the zero row count.)  All operations are pure: no input Frame
is ever modified. -/
theorem claim_C8_amended {V : Type} :
    (∀ (f f' : Frame V) (i c : Option (List Lbl)) (fill : V),
        f.wf → f.reindex i c fill = .ok f' → f'.wf) ∧
    (∀ (f g : Frame V) (rk ck : Option Key),
        f.wf → f.extract rk ck = .ok (.frame g) → g.wf) ∧
    (∀ (f F' : Frame V) (rk ck : Option Key) (v : AssignValue V) (fill : V),
        f.wf → frameAssignCall f rk ck v fill = .ok F' → F'.wf) ∧
    (∀ (frames : List (Frame V)) (i c : Option (List Lbl)) (u : Bool)
        (nm : Option String) (fill : V) (F : Frame V),
        (∀ fr ∈ frames, fr.wf) →
        Frame.fromConcat0 frames i c u nm fill = .ok F →
        F.blocks.wf ∧ F.columns.labels.length = F.blocks.colCount ∧
          F.index.labels.Nodup ∧ F.columns.labels.Nodup ∧
          (F.blocks.rowCount ≠ 0 →
            F.index.labels.length = F.blocks.rowCount)) :=
  ⟨fun _ _ _ _ _ hf h => reindex_wf hf h,
   fun _ _ _ _ hf h => extract_frame_wf hf h,
   fun _ _ _ _ _ _ hf h => frameAssignCall_wf hf h,
   fun _ _ _ _ _ _ _ hwf h => fromConcat0_wf hwf h⟩

theorem claim_C8_amended_witness :
    (Frame.mk ⟨[[(5 : Int)]], 1⟩ ⟨[Lbl.nat 0]⟩ ⟨[Lbl.str "c"]⟩ none).wf ∧
    (Frame.mk ⟨[[(5 : Int)]], 1⟩ ⟨[Lbl.nat 0]⟩ ⟨[Lbl.str "c"]⟩
        none).reindex (some [Lbl.nat 0]) (some [Lbl.str "c"]) 0 =
      .ok (Frame.mk ⟨[[(5 : Int)]], 1⟩ ⟨[Lbl.nat 0]⟩ ⟨[Lbl.str "c"]⟩ none) ∧
    (Frame.mk ⟨[[(5 : Int)]], 1⟩ ⟨[Lbl.nat 0]⟩ ⟨[Lbl.str "c"]⟩ none).wf :=
  ⟨by decide, by decide,
    (claim_C8_amended (V := Int)).1
      (Frame.mk ⟨[[(5 : Int)]], 1⟩ ⟨[Lbl.nat 0]⟩ ⟨[Lbl.str "c"]⟩ none)
      (Frame.mk ⟨[[(5 : Int)]], 1⟩ ⟨[Lbl.nat 0]⟩ ⟨[Lbl.str "c"]⟩ none)
      (some [Lbl.nat 0]) (some [Lbl.str "c"]) 0 (by decide) (by decide)⟩

theorem locToIloc_single {ix : SFIndex} {l : Lbl} {k' : Key}
    (h : ix.locToIloc (.single l) = .ok k') : ∃ i, k' = .single i := by
  simp only [SFIndex.locToIloc] at h
  cases hp : posOf ix.labels l with
  | none => rw [hp] at h; cases h
  | some i =>
    rw [hp] at h
    exact ⟨i, (Except.ok.inj h).symm⟩

theorem locToIloc_mult {ix : SFIndex} {k : LocKey} {k' : Key}
    (hm : k.isMultiple = true) (h : ix.locToIloc k = .ok k') :
    k'.isMultiple = true := by
  cases k with
  | single l => simp [LocKey.isMultiple] at hm
  | slice lo hi =>
    simp only [SFIndex.locToIloc] at h
    obtain ⟨lo', hlo, h⟩ := except_bind_ok h
    obtain ⟨hi', hhi, h⟩ := except_bind_ok h
    have : Key.slice lo' hi' = k' := Except.ok.inj h
    rw [← this]
    rfl
  | list ls =>
    simp only [SFIndex.locToIloc] at h
    obtain ⟨ps, hps, h⟩ := except_bind_ok h
    have : Key.list ps = k' := Except.ok.inj h
    rw [← this]
    rfl
  | boolMask bs =>
    have : Key.boolMask bs = k' := Except.ok.inj h
    rw [← this]
    rfl

theorem extract_single_single {V : Type} {tb : TypeBlocks V} {i j : Nat}
    {r : Sum V (TypeBlocks V)}
    (h : tb.extract (some (.single i)) (some (.single j)) = .ok r) :
    ∃ v, r = .inl v := by
  unfold TypeBlocks.extract at h
  by_cases hrv : keyValid tb.rowCount (some (.single i)) = true
  case neg => rw [if_pos (by simpa using hrv)] at h; cases h
  case pos =>
  rw [if_neg (by simpa using hrv)] at h
  by_cases hcv : keyValid tb.colCount (some (.single j)) = true
  case neg => rw [if_pos (by simpa using hcv)] at h; cases h
  case pos =>
  rw [if_neg (by simpa using hcv)] at h
  dsimp only at h
  cases hc : tb.cell? i j with
  | none => rw [hc] at h; cases h
  | some v =>
    rw [hc] at h
    exact ⟨v, (Except.ok.inj h).symm⟩

theorem extract_not_single_inr {V : Type} {tb : TypeBlocks V}
    {rk ck : Option Key} {r : Sum V (TypeBlocks V)}
    (hns : ∀ i j, ¬ (rk = some (.single i) ∧ ck = some (.single j)))
    (h : tb.extract rk ck = .ok r) : ∃ tb', r = .inr tb' := by
  unfold TypeBlocks.extract at h
  by_cases hrv : keyValid tb.rowCount rk = true
  case neg => rw [if_pos (by simpa using hrv)] at h; cases h
  case pos =>
  rw [if_neg (by simpa using hrv)] at h
  by_cases hcv : keyValid tb.colCount ck = true
  case neg => rw [if_pos (by simpa using hcv)] at h; cases h
  case pos =>
  rw [if_neg (by simpa using hcv)] at h
  split at h
  · rename_i i j
    exact absurd ⟨rfl, rfl⟩ (hns i j)
  · exact ⟨_, (Except.ok.inj h).symm⟩

theorem extractResolveAxis_labels {cur : SFIndex} {count : Nat}
    {key : Option Key} {ix : SFIndex} {nm : Option Lbl}
    (hlen : cur.labels.length = count)
    (h : extractResolveAxis cur count key = .ok (ix, nm)) :
    ix.labels = (keyPositions count key).filterMap
      (fun i => cur.labels.get? i) := by
  unfold extractResolveAxis at h
  by_cases hcnd : key = none ∨ key = some (.slice none none)
  · rw [if_pos hcnd] at h
    simp only [Except.ok.injEq, Prod.mk.injEq] at h
    obtain ⟨rfl, rfl⟩ := h
    rcases hcnd with rfl | rfl
    · rw [show keyPositions count none = List.range count from rfl, ← hlen,
        filterMap_get?_range]
    · rw [show keyPositions count (some (.slice none none))
          = slicePositions count none none from rfl, slicePositions_null,
        ← hlen, filterMap_get?_range]
  · rw [if_neg hcnd] at h
    obtain ⟨x, hx, hpure⟩ := except_bind_ok h
    simp only [pure, Except.pure, Except.ok.injEq, Prod.mk.injEq] at hpure
    obtain ⟨rfl, rfl⟩ := hpure
    unfold SFIndex.extractIloc at hx
    exact (fromLabels_ok_labels hx).1

theorem frame_map_ok_exists {V : Type} {X : Except SFError (Frame V)}
    {res : ExtractResult V} (h : (ExtractResult.frame <$> X) = .ok res) :
    ∃ g, res = .frame g := by
  cases X with
  | error e => simp [Functor.map, Except.map] at h
  | ok g =>
    simp only [Functor.map, Except.map, Except.ok.injEq] at h
    exact ⟨g, h.symm⟩

theorem extractLoc_pair {V : Type} {f : Frame V} {kr kc : LocKey}
    {rk ck : Key} (hr : f.index.locToIloc kr = .ok rk)
    (hc : f.columns.locToIloc kc = .ok ck) :
    f.extractLoc (.pair kr kc) = f.extract (some rk) (some ck) := by
  unfold Frame.extractLoc Frame.compoundLocToIloc
  simp only [hc, hr, bind, Except.bind, pure, Except.pure]

/-- C2: for every well-formed Frame and every pair of loc keys, each
classified as single-selecting (a bare label) or multiple-selecting (slice,
list, boolean mask), a successful loc-extraction collapses dimensionality
exactly as classified: both single yields a bare scalar; row single and
column multiple yields a labelled vector indexed by the selected columns;
column single and row multiple yields a labelled vector indexed by the
selected rows; both multiple yields a Frame. -/
theorem claim_C2 {V : Type} (f : Frame V) (hf : f.wf) (kr kc : LocKey)
    (rk ck : Key) (res : ExtractResult V)
    (hr : f.index.locToIloc kr = .ok rk)
    (hc : f.columns.locToIloc kc = .ok ck)
    (hres : f.extractLoc (.pair kr kc) = .ok res) :
    (kr.isMultiple = false → kc.isMultiple = false →
      ∃ v, res = .element v) ∧
    (kr.isMultiple = false → kc.isMultiple = true →
      ∃ s, res = .series s ∧ s.index.labels =
        (keyPositions f.blocks.colCount (some ck)).filterMap
          (fun j => f.columns.labels.get? j)) ∧
    (kr.isMultiple = true → kc.isMultiple = false →
      ∃ s, res = .series s ∧ s.index.labels =
        (keyPositions f.blocks.rowCount (some rk)).filterMap
          (fun i => f.index.labels.get? i)) ∧
    (kr.isMultiple = true → kc.isMultiple = true →
      ∃ g, res = .frame g) := by
  obtain ⟨hb, hrl, hcl, hnr, hnc⟩ := hf
  rw [extractLoc_pair hr hc] at hres
  unfold Frame.extract at hres
  obtain ⟨bl, hbl, hres⟩ := except_bind_ok hres
  refine ⟨?_, ?_, ?_, ?_⟩
  · -- both single: scalar
    intro hm1 hm2
    cases kr with
    | slice lo hi => simp [LocKey.isMultiple] at hm1
    | list ls => simp [LocKey.isMultiple] at hm1
    | boolMask bs => simp [LocKey.isMultiple] at hm1
    | single lr =>
      cases kc with
      | slice lo hi => simp [LocKey.isMultiple] at hm2
      | list ls => simp [LocKey.isMultiple] at hm2
      | boolMask bs => simp [LocKey.isMultiple] at hm2
      | single lc =>
        obtain ⟨i, rfl⟩ := locToIloc_single hr
        obtain ⟨j, rfl⟩ := locToIloc_single hc
        obtain ⟨v, rfl⟩ := extract_single_single hbl
        have h' : (Except.ok (ExtractResult.element v)
            : Except SFError (ExtractResult V)) = .ok res := hres
        exact ⟨v, (Except.ok.inj h').symm⟩
  · -- row single, column multiple: Series over selected columns
    intro hm1 hm2
    cases kr with
    | slice lo hi => simp [LocKey.isMultiple] at hm1
    | list ls => simp [LocKey.isMultiple] at hm1
    | boolMask bs => simp [LocKey.isMultiple] at hm1
    | single lr =>
      obtain ⟨i, rfl⟩ := locToIloc_single hr
      have hckm : ck.isMultiple = true := locToIloc_mult hm2 hc
      have hns : ∀ i' j', ¬ (some (Key.single i) = some (Key.single i')
          ∧ some ck = some (Key.single j')) := by
        intro i' j' ⟨_, hcontra⟩
        have : ck = Key.single j' := Option.some.inj hcontra
        rw [this] at hckm
        simp [Key.isMultiple] at hckm
      obtain ⟨tb', rfl⟩ := extract_not_single_inr hns hbl
      obtain ⟨_, hbr, _⟩ := extract_inr_stats hb hbl
      dsimp only at hres
      obtain ⟨⟨index, nameRow⟩, hix, hres⟩ := except_bind_ok hres
      dsimp only at hres
      obtain ⟨⟨columns, nameColumn⟩, hcx, hres⟩ := except_bind_ok hres
      dsimp only at hres
      have ha1 : (extractAxisNotMulti (some (Key.single i)) (some ck)).1
          = true := by
        simp [extractAxisNotMulti, Key.isMultiple]
      have hlab := extractResolveAxis_labels hcl hcx
      have hrow1 : tb'.shape.1 = 1 := by
        show tb'.rowCount = 1
        rw [hbr]
        rfl
      by_cases h11 : tb'.shape = (1, 1)
      · rw [if_pos h11, if_pos ha1] at hres
        have h' : (Except.ok (ExtractResult.series
            ⟨tb'.row 0, columns, nameRow⟩)
            : Except SFError (ExtractResult V)) = .ok res := hres
        exact ⟨_, (Except.ok.inj h').symm, hlab⟩
      · rw [if_neg h11, if_pos hrow1, if_pos ha1] at hres
        have h' : (Except.ok (ExtractResult.series
            ⟨tb'.row 0, columns, nameRow⟩)
            : Except SFError (ExtractResult V)) = .ok res := hres
        exact ⟨_, (Except.ok.inj h').symm, hlab⟩
  · -- column single, row multiple: Series over selected rows
    intro hm1 hm2
    cases kc with
    | slice lo hi => simp [LocKey.isMultiple] at hm2
    | list ls => simp [LocKey.isMultiple] at hm2
    | boolMask bs => simp [LocKey.isMultiple] at hm2
    | single lc =>
      obtain ⟨j, rfl⟩ := locToIloc_single hc
      have hrkm : rk.isMultiple = true := locToIloc_mult hm1 hr
      have hns : ∀ i' j', ¬ (some rk = some (Key.single i')
          ∧ some (Key.single j) = some (Key.single j')) := by
        intro i' j' ⟨hcontra, _⟩
        have : rk = Key.single i' := Option.some.inj hcontra
        rw [this] at hrkm
        simp [Key.isMultiple] at hrkm
      obtain ⟨tb', rfl⟩ := extract_not_single_inr hns hbl
      obtain ⟨_, _, hbc⟩ := extract_inr_stats hb hbl
      dsimp only at hres
      obtain ⟨⟨index, nameRow⟩, hix, hres⟩ := except_bind_ok hres
      dsimp only at hres
      obtain ⟨⟨columns, nameColumn⟩, hcx, hres⟩ := except_bind_ok hres
      dsimp only at hres
      have ha1 : ¬ ((extractAxisNotMulti (some rk) (some (Key.single j))).1
          = true) := by
        simp [extractAxisNotMulti, hrkm]
      have ha2 : (extractAxisNotMulti (some rk) (some (Key.single j))).2
          = true := by
        simp [extractAxisNotMulti, Key.isMultiple]
      have hlab := extractResolveAxis_labels hrl hix
      have hcol1 : tb'.shape.2 = 1 := by
        show tb'.colCount = 1
        rw [hbc]
        rfl
      by_cases h11 : tb'.shape = (1, 1)
      · rw [if_pos h11, if_neg ha1, if_pos ha2] at hres
        have h' : (Except.ok (ExtractResult.series
            ⟨tb'.row 0, index, nameColumn⟩)
            : Except SFError (ExtractResult V)) = .ok res := hres
        exact ⟨_, (Except.ok.inj h').symm, hlab⟩
      · have hs1 : ¬ (tb'.shape.1 = 1) := by
          intro hcontra
          exact h11 (Prod.ext hcontra hcol1)
        rw [if_neg h11, if_neg hs1, if_pos hcol1, if_pos ha2] at hres
        have h' : (Except.ok (ExtractResult.series
            ⟨tb'.columns.getD 0 [], index, nameColumn⟩)
            : Except SFError (ExtractResult V)) = .ok res := hres
        exact ⟨_, (Except.ok.inj h').symm, hlab⟩
  · -- both multiple: Frame
    intro hm1 hm2
    have hrkm : rk.isMultiple = true := locToIloc_mult hm1 hr
    have hckm : ck.isMultiple = true := locToIloc_mult hm2 hc
    have hns : ∀ i' j', ¬ (some rk = some (Key.single i')
        ∧ some ck = some (Key.single j')) := by
      intro i' j' ⟨hcontra, _⟩
      have : rk = Key.single i' := Option.some.inj hcontra
      rw [this] at hrkm
      simp [Key.isMultiple] at hrkm
    obtain ⟨tb', rfl⟩ := extract_not_single_inr hns hbl
    dsimp only at hres
    obtain ⟨⟨index, nameRow⟩, hix, hres⟩ := except_bind_ok hres
    dsimp only at hres
    obtain ⟨⟨columns, nameColumn⟩, hcx, hres⟩ := except_bind_ok hres
    dsimp only at hres
    have ha1 : ¬ ((extractAxisNotMulti (some rk) (some ck)).1 = true) := by
      simp [extractAxisNotMulti, hrkm]
    have ha2 : ¬ ((extractAxisNotMulti (some rk) (some ck)).2 = true) := by
      simp [extractAxisNotMulti, hckm]
    by_cases h11 : tb'.shape = (1, 1)
    · rw [if_pos h11, if_neg ha1, if_neg ha2] at hres
      exact frame_map_ok_exists hres
    · rw [if_neg h11] at hres
      by_cases hs1 : tb'.shape.1 = 1
      · rw [if_pos hs1, if_neg ha1] at hres
        exact frame_map_ok_exists hres
      · rw [if_neg hs1] at hres
        by_cases hs2 : tb'.shape.2 = 1
        · rw [if_pos hs2, if_neg ha2] at hres
          exact frame_map_ok_exists hres
        · rw [if_neg hs2] at hres
          exact frame_map_ok_exists hres

theorem claim_C2_witness :
    (Frame.mk ⟨[[(1 : Int), 4, 7], [2, 5, 8], [3, 6, 9]], 3⟩
        ⟨[Lbl.str "w", Lbl.str "x", Lbl.str "y"]⟩
        ⟨[Lbl.str "p", Lbl.str "q", Lbl.str "r"]⟩ none).extractLoc
        (.pair (.single (Lbl.str "x")) (.single (Lbl.str "q")))
      = .ok (.element 5) ∧
    ∃ v, (ExtractResult.element (5 : Int)) = .element v :=
  ⟨by decide,
    (claim_C2
      (Frame.mk ⟨[[(1 : Int), 4, 7], [2, 5, 8], [3, 6, 9]], 3⟩
        ⟨[Lbl.str "w", Lbl.str "x", Lbl.str "y"]⟩
        ⟨[Lbl.str "p", Lbl.str "q", Lbl.str "r"]⟩ none)
      (by decide)
      (LocKey.single (Lbl.str "x")) (LocKey.single (Lbl.str "q"))
      (Key.single 1) (Key.single 1) (ExtractResult.element 5)
      (by decide) (by decide) (by decide)).1 (by decide) (by decide)⟩

theorem reindex_atLabel {V : Type} (s : MSeries V) (tgt : SFIndex) (fill : V) :
    ∀ l ∈ tgt.labels,
      (s.reindex tgt fill).atLabel l fill
        = if l ∈ s.index.labels then s.atLabel l fill else fill := by
  intro l hl
  obtain ⟨t, ht⟩ := Option.isSome_iff_exists.mp (posOf_isSome_of_mem hl)
  have hlt : t < tgt.labels.length := posOf_lt_length ht
  have hget : tgt.labels.get? t = some l := posOf_get? ht
  have hgetl : tgt.labels[t] = l := by
    have := hget
    rw [List.get?_eq_getElem?, List.getElem?_eq_getElem hlt] at this
    exact Option.some.inj this
  show (match posOf (s.reindex tgt fill).index.labels l with
    | some i => (s.reindex tgt fill).values.getD i fill
    | none => fill) = _
  have hidx : (s.reindex tgt fill).index = tgt := rfl
  rw [hidx, ht]
  show (tgt.labels.map (fun l => match posOf s.index.labels l with
      | some i => s.values.getD i fill
      | none => fill)).getD t fill = _
  rw [List.getD_eq_getElem _ _ (by simpa using hlt), List.getElem_map, hgetl]
  by_cases hm : l ∈ s.index.labels
  · rw [if_pos hm]
    rfl
  · rw [if_neg hm, posOf_eq_none_of_not_mem hm]

theorem getD_replicate_self {V : Type} (n i : Nat) (a : V) :
    (List.replicate n a).getD i a = a := by
  unfold List.getD
  rw [List.get?_eq_getElem?, List.getElem?_replicate]
  split <;> simp

theorem resizeBlocks_cellD {V : Type} (tb : TypeBlocks V)
    (icR icC : List (Option Nat)) (fill : V) {tr tc : Nat}
    (htr : tr < icR.length) (htc : tc < icC.length) :
    (resizeBlocks tb (some icR) (some icC) fill).cellD fill tr tc
      = match icR[tr], icC[tc] with
        | some i, some j => tb.cellD fill i j
        | none, _ => fill
        | some _, none => fill := by
  unfold resizeBlocks TypeBlocks.cellD
  dsimp only
  rw [List.getD_eq_getElem ((icC.map _).map _) [] (by simpa using htc),
    List.getElem_map, List.getElem_map]
  rw [List.getD_eq_getElem (icR.map _) fill (by simpa using htr),
    List.getElem_map]
  cases hR : icR[tr] with
  | none => cases hC : icC[tc] <;> rfl
  | some i =>
    cases hC : icC[tc] with
    | none => exact getD_replicate_self _ _ _
    | some j => rfl

theorem reindex_cellAtLabels {V : Type} {g g' : Frame V}
    {rls cls : List Lbl} {fill : V}
    (h : g.reindex (some rls) (some cls) fill = .ok g') :
    g'.index.labels = rls ∧ g'.columns.labels = cls ∧
    ∀ r ∈ rls, ∀ c ∈ cls,
      g'.cellAtLabels r c fill
        = if r ∈ g.index.labels ∧ c ∈ g.columns.labels
          then g.cellAtLabels r c fill else fill := by
  unfold Frame.reindex at h
  rw [if_neg (by simp)] at h
  obtain ⟨⟨ix, icr⟩, hix, h⟩ := except_bind_ok h
  dsimp only at h
  obtain ⟨⟨cx, icc⟩, hcx, h⟩ := except_bind_ok h
  dsimp only at h
  rcases reindexResolveAxis_ok_cases hix with ⟨hco, _, _⟩
    | ⟨ls, hls, hndR, hixeq, hicr⟩
  · cases hco
  rcases reindexResolveAxis_ok_cases hcx with ⟨hco, _, _⟩
    | ⟨ms, hms, hndC, hcxeq, hicc⟩
  · cases hco
  have hlseq : ls = rls := (Option.some.inj hls).symm
  have hmseq : ms = cls := (Option.some.inj hms).symm
  rw [hlseq] at hixeq hicr
  rw [hmseq] at hcxeq hicc
  subst hixeq hcxeq hicr hicc
  obtain ⟨hF, _, _⟩ := frameInitOwn_ok h
  subst hF
  refine ⟨rfl, rfl, ?_⟩
  intro r hr c hc
  obtain ⟨tr, htr⟩ := Option.isSome_iff_exists.mp (posOf_isSome_of_mem hr)
  obtain ⟨tc, htc⟩ := Option.isSome_iff_exists.mp (posOf_isSome_of_mem hc)
  have hltr : tr < rls.length := posOf_lt_length htr
  have hltc : tc < cls.length := posOf_lt_length htc
  have h1 : tr < (indexCorrespondence g.index (⟨rls⟩ : SFIndex)).length := by
    simpa [indexCorrespondence] using hltr
  have h2 : tc < (indexCorrespondence g.columns (⟨cls⟩ : SFIndex)).length := by
    simpa [indexCorrespondence] using hltc
  have hgr : rls[tr] = r := by
    have hq := posOf_get? htr
    rw [List.get?_eq_getElem?, List.getElem?_eq_getElem hltr] at hq
    exact Option.some.inj hq
  have hgc : cls[tc] = c := by
    have hq := posOf_get? htc
    rw [List.get?_eq_getElem?, List.getElem?_eq_getElem hltc] at hq
    exact Option.some.inj hq
  have hIr : (indexCorrespondence g.index (⟨rls⟩ : SFIndex))[tr]
      = posOf g.index.labels r := by
    have hmap : (rls.map (posOf g.index.labels))[tr]
        = posOf g.index.labels r := by
      rw [List.getElem_map, hgr]
    exact hmap
  have hIc : (indexCorrespondence g.columns (⟨cls⟩ : SFIndex))[tc]
      = posOf g.columns.labels c := by
    have hmap : (cls.map (posOf g.columns.labels))[tc]
        = posOf g.columns.labels c := by
      rw [List.getElem_map, hgc]
    exact hmap
  have hL : (⟨resizeBlocks g.blocks (some (indexCorrespondence g.index ⟨rls⟩))
        (some (indexCorrespondence g.columns ⟨cls⟩)) fill,
        ⟨rls⟩, ⟨cls⟩, g.name⟩ : Frame V).cellAtLabels r c fill
      = (resizeBlocks g.blocks (some (indexCorrespondence g.index ⟨rls⟩))
          (some (indexCorrespondence g.columns ⟨cls⟩)) fill).cellD fill tr tc := by
    unfold Frame.cellAtLabels
    dsimp only
    rw [htr, htc]
  rw [hL, resizeBlocks_cellD g.blocks _ _ fill h1 h2, hIr, hIc]
  by_cases hmr : r ∈ g.index.labels
  · by_cases hmc : c ∈ g.columns.labels
    · obtain ⟨i, hi⟩ := Option.isSome_iff_exists.mp (posOf_isSome_of_mem hmr)
      obtain ⟨j, hj⟩ := Option.isSome_iff_exists.mp (posOf_isSome_of_mem hmc)
      rw [hi, hj, if_pos ⟨hmr, hmc⟩]
      show g.blocks.cellD fill i j = g.cellAtLabels r c fill
      unfold Frame.cellAtLabels
      rw [hi, hj]
    · rw [posOf_eq_none_of_not_mem hmc, if_neg (fun hh => hmc hh.2)]
      cases posOf g.index.labels r <;> rfl
  · rw [posOf_eq_none_of_not_mem hmr, if_neg (fun hh => hmr hh.1)]

/-- C7: for every Frame assignment whose supplied value is a labelled
container (Series or Frame), `_reindex_other_like_iloc` first reindexes the
value by label onto the exact sub-labels of the selected target region (the
labels of this Frame's axes at the positions selected by the iloc key), with
the supplied fill value used for every target cell whose label is absent from
the source; the overwritten cells therefore realign by label, never by
position. -/
theorem claim_C7 {V : Type} (f : Frame V) (value : LabelledValue V)
    (rowKey colKey : Option Key) (fill : V) (v' : LabelledValue V)
    (h : f.reindexOtherLikeIloc value rowKey colKey fill = .ok v') :
    (∀ s, value = .series s →
      ∃ s', v' = .series s' ∧
        (extractAxisNotMulti rowKey colKey = (true, false) →
          s'.index.labels = (assignTargetLabels f rowKey colKey).2) ∧
        (extractAxisNotMulti rowKey colKey = (false, true) →
          s'.index.labels = (assignTargetLabels f rowKey colKey).1) ∧
        ∀ l ∈ s'.index.labels,
          s'.atLabel l fill
            = if l ∈ s.index.labels then s.atLabel l fill else fill) ∧
    (∀ g, value = .frame g →
      ∃ g', v' = .frame g' ∧
        g'.index.labels = (assignTargetLabels f rowKey colKey).1 ∧
        g'.columns.labels = (assignTargetLabels f rowKey colKey).2 ∧
        ∀ r ∈ g'.index.labels, ∀ c ∈ g'.columns.labels,
          g'.cellAtLabels r c fill
            = if r ∈ g.index.labels ∧ c ∈ g.columns.labels
              then g.cellAtLabels r c fill else fill) := by
  unfold Frame.reindexOtherLikeIloc at h
  dsimp only at h
  by_cases h1 : (extractAxisNotMulti rowKey colKey).1 = true
      ∧ (extractAxisNotMulti rowKey colKey).2 = false
  · rw [if_pos h1] at h
    rcases value with s | gg
    · dsimp only at h
      obtain ⟨tgt, htgt, h⟩ := except_bind_ok h
      simp only [pure, Except.pure, Except.ok.injEq] at h
      subst h
      refine ⟨?_, ?_⟩
      · intro s0 hs0
        obtain rfl : s = s0 := LabelledValue.series.inj hs0
        refine ⟨s.reindex tgt fill, rfl, ?_, ?_, ?_⟩
        · intro _
          exact (fromLabels_ok_labels htgt).1
        · intro hcontra
          rw [hcontra] at h1
          simp at h1
        · exact reindex_atLabel s tgt fill
      · intro g0 hg0
        cases hg0
    · exact Except.noConfusion h
  · rw [if_neg h1] at h
    by_cases h2 : (extractAxisNotMulti rowKey colKey).1 = false
        ∧ (extractAxisNotMulti rowKey colKey).2 = true
    · rw [if_pos h2] at h
      rcases value with s | gg
      · dsimp only at h
        obtain ⟨tgt, htgt, h⟩ := except_bind_ok h
        simp only [pure, Except.pure, Except.ok.injEq] at h
        subst h
        refine ⟨?_, ?_⟩
        · intro s0 hs0
          obtain rfl : s = s0 := LabelledValue.series.inj hs0
          refine ⟨s.reindex tgt fill, rfl, ?_, ?_, ?_⟩
          · intro hcontra
            rw [hcontra] at h2
            simp at h2
          · intro _
            exact (fromLabels_ok_labels htgt).1
          · exact reindex_atLabel s tgt fill
        · intro g0 hg0
          cases hg0
      · exact Except.noConfusion h
    · rw [if_neg h2] at h
      by_cases h3 : (extractAxisNotMulti rowKey colKey).1 = false
          ∧ (extractAxisNotMulti rowKey colKey).2 = false
      · rw [if_pos h3] at h
        rcases value with s | gg
        · exact Except.noConfusion h
        · dsimp only at h
          obtain ⟨tgtC, htgtC, h⟩ := except_bind_ok h
          obtain ⟨tgtR, htgtR, h⟩ := except_bind_ok h
          obtain ⟨g2, hg2, h⟩ := except_bind_ok h
          simp only [pure, Except.pure, Except.ok.injEq] at h
          subst h
          refine ⟨?_, ?_⟩
          · intro s0 hs0
            cases hs0
          · intro g0 hg0
            obtain rfl : g0 = gg := (LabelledValue.frame.inj hg0).symm
            obtain ⟨hgi, hgc, hcells⟩ := reindex_cellAtLabels hg2
            refine ⟨g2, rfl, ?_, ?_, ?_⟩
            · rw [hgi]
              exact (fromLabels_ok_labels htgtR).1
            · rw [hgc]
              exact (fromLabels_ok_labels htgtC).1
            · intro r hr c hc
              rw [hgi] at hr
              rw [hgc] at hc
              exact hcells r hr c hc
      · rw [if_neg h3] at h
        cases h

theorem claim_C7_witness :
    ((⟨⟨[[1, 2], [3, 4]], 2⟩, ⟨[Lbl.str "w", Lbl.str "x"]⟩,
        ⟨[Lbl.str "p", Lbl.str "q"]⟩, none⟩ : Frame Int).reindexOtherLikeIloc
        (.series ⟨[10, 20], ⟨[Lbl.str "q", Lbl.str "z"]⟩, none⟩)
        (some (Key.single 0)) none 0
      = .ok (.series ⟨[0, 10], ⟨[Lbl.str "p", Lbl.str "q"]⟩, none⟩)) ∧
    ((∀ s, (LabelledValue.series
          (⟨[10, 20], ⟨[Lbl.str "q", Lbl.str "z"]⟩, none⟩ : MSeries Int))
          = .series s →
      ∃ s', (LabelledValue.series
          (⟨[0, 10], ⟨[Lbl.str "p", Lbl.str "q"]⟩, none⟩ : MSeries Int))
          = .series s' ∧
        (extractAxisNotMulti (some (Key.single 0)) none = (true, false) →
          s'.index.labels
            = (assignTargetLabels
                (⟨⟨[[1, 2], [3, 4]], 2⟩, ⟨[Lbl.str "w", Lbl.str "x"]⟩,
                  ⟨[Lbl.str "p", Lbl.str "q"]⟩, none⟩ : Frame Int)
                (some (Key.single 0)) none).2) ∧
        (extractAxisNotMulti (some (Key.single 0)) none = (false, true) →
          s'.index.labels
            = (assignTargetLabels
                (⟨⟨[[1, 2], [3, 4]], 2⟩, ⟨[Lbl.str "w", Lbl.str "x"]⟩,
                  ⟨[Lbl.str "p", Lbl.str "q"]⟩, none⟩ : Frame Int)
                (some (Key.single 0)) none).1) ∧
        ∀ l ∈ s'.index.labels,
          s'.atLabel l 0
            = if l ∈ s.index.labels then s.atLabel l 0 else 0) ∧
    (∀ g, (LabelledValue.series
          (⟨[10, 20], ⟨[Lbl.str "q", Lbl.str "z"]⟩, none⟩ : MSeries Int))
          = .frame g →
      ∃ g', (LabelledValue.series
          (⟨[0, 10], ⟨[Lbl.str "p", Lbl.str "q"]⟩, none⟩ : MSeries Int))
          = .frame g' ∧
        g'.index.labels
          = (assignTargetLabels
              (⟨⟨[[1, 2], [3, 4]], 2⟩, ⟨[Lbl.str "w", Lbl.str "x"]⟩,
                ⟨[Lbl.str "p", Lbl.str "q"]⟩, none⟩ : Frame Int)
              (some (Key.single 0)) none).1 ∧
        g'.columns.labels
          = (assignTargetLabels
              (⟨⟨[[1, 2], [3, 4]], 2⟩, ⟨[Lbl.str "w", Lbl.str "x"]⟩,
                ⟨[Lbl.str "p", Lbl.str "q"]⟩, none⟩ : Frame Int)
              (some (Key.single 0)) none).2 ∧
        ∀ r ∈ g'.index.labels, ∀ c ∈ g'.columns.labels,
          g'.cellAtLabels r c 0
            = if r ∈ g.index.labels ∧ c ∈ g.columns.labels
              then g.cellAtLabels r c 0 else 0)) :=
  ⟨by decide,
    claim_C7
      (⟨⟨[[1, 2], [3, 4]], 2⟩, ⟨[Lbl.str "w", Lbl.str "x"]⟩,
        ⟨[Lbl.str "p", Lbl.str "q"]⟩, none⟩ : Frame Int)
      (.series ⟨[10, 20], ⟨[Lbl.str "q", Lbl.str "z"]⟩, none⟩)
      (some (Key.single 0)) none 0
      (.series ⟨[0, 10], ⟨[Lbl.str "p", Lbl.str "q"]⟩, none⟩)
      (by decide)⟩
